import Mathlib

/-!
Verification of the j2gpp variable-merging and render-pipeline core.

This file gives a shallow embedding, in Lean, of the parts of j2gpp that the
claims concern:

* `src/j2gpp/utils.py`   : `auto_cast_str`, `var_dict_update` (the recursive
  variable merge with conflict warnings), `change_working_directory`;
* `src/j2gpp/engine.py`  : `J2GPP.define_variable` / `_merge_variables`;
* `src/j2gpp/loaders.py` : `load_env_variables`;
* `src/j2gpp/core.py`    : `process_single_file` (the per-file render
  pipeline), together with the `write_source_toggle` protocol of
  `src/j2gpp/filters.py`.

Python values are modelled by the inductive type `PyVal`; Python dicts by
insertion-ordered association lists with string keys.  Fallible operations
return `Option`/`Except`; the process-wide mutable state touched by the
render pipeline (working directory, filesystem, write-source toggle, warning
and error accumulators) is modelled by an explicit `World` state threaded by
a small state-plus-exceptions monad.
-/

set_option autoImplicit false

/-- Model of a Python value as used by the j2gpp variable machinery: `None`,
booleans, integers, floats (as `mantissa / 10 ^ fracDigits`), strings, lists
and string-keyed dicts.  Dicts are insertion-ordered association lists,
mirroring Python dict iteration order. -/
inductive PyVal where
  | none : PyVal
  | bool (b : Bool) : PyVal
  | int (n : Int) : PyVal
  | float (mantissa : Int) (fracDigits : Nat) : PyVal
  | str (s : String) : PyVal
  | list (l : List PyVal) : PyVal
  | dict (d : List (String × PyVal)) : PyVal
deriving Repr

/-- A Python dict with string keys: an insertion-ordered association list. -/
abbrev PyDict := List (String × PyVal)

/-- Python `d[k]` / `k in d`: first (and, for genuine dicts, only) binding of
a key. -/
def lookupAssoc (d : PyDict) (k : String) : Option PyVal :=
  match d with
  | [] => Option.none
  | (k1, v) :: rest => if k1 = k then some v else lookupAssoc rest k

/-- Python `k in d.keys()`. -/
def dictContains (d : PyDict) (k : String) : Bool :=
  (lookupAssoc d k).isSome

/-- Python `d[k] = v`: replace the binding in place if the key is present
(keeping its position, as Python dicts do), otherwise append it. -/
def dictSet (d : PyDict) (k : String) (v : PyVal) : PyDict :=
  match d with
  | [] => [(k, v)]
  | (k1, w) :: rest => if k1 = k then (k, v) :: rest else (k1, w) :: dictSet rest k v

/-- Numeric view of a value, for Python cross-type numeric equality
(`True == 1`, `1 == 1.0`): the pair `(m, e)` denotes `m / 10 ^ e`. -/
def asNum : PyVal → Option (Int × Nat)
  | .bool b => some (if b then 1 else 0, 0)
  | .int n => some (n, 0)
  | .float m e => some (m, e)
  | _ => Option.none

mutual

/-- Python `==` on modelled values: numeric types compare by value across
`bool`/`int`/`float`; lists compare element-wise; dicts compare as unordered
key-value sets (same size and every binding of the left dict holds in the
right one). -/
def pyEq : PyVal → PyVal → Bool
  | .none, .none => true
  | .str a, .str b => a = b
  | .list l1, .list l2 => pyEqList l1 l2
  | .dict d1, .dict d2 => d1.length = d2.length && pyEqEntries d1 d2
  | a, b =>
      match asNum a, asNum b with
      | some (m1, e1), some (m2, e2) => m1 * (10 : Int) ^ e2 = m2 * (10 : Int) ^ e1
      | _, _ => false
termination_by a _ => sizeOf a
decreasing_by all_goals (simp_wf <;> omega)

/-- Element-wise Python `==` on lists. -/
def pyEqList : List PyVal → List PyVal → Bool
  | [], [] => true
  | a :: as1, b :: bs => pyEq a b && pyEqList as1 bs
  | _, _ => false
termination_by l _ => sizeOf l
decreasing_by all_goals (simp_wf <;> omega)

/-- Every binding of the first dict holds (under `pyEq`) in the second. -/
def pyEqEntries : PyDict → PyDict → Bool
  | [], _ => true
  | (k, v) :: rest, d2 =>
      (match lookupAssoc d2 k with
       | some w => pyEq v w
       | Option.none => false) && pyEqEntries rest d2
termination_by d _ => sizeOf d
decreasing_by all_goals (simp_wf <;> omega)

end

/-- Decimal rendering of the modelled float `m / 10 ^ e`. -/
def floatRepr (m : Int) (e : Nat) : String :=
  let sign := if m < 0 then "-" else ""
  let digits := toString m.natAbs
  let digits :=
    if digits.length ≤ e then
      String.mk (List.replicate (e + 1 - digits.length) '0') ++ digits
    else digits
  if e = 0 then sign ++ digits ++ ".0"
  else sign ++ String.mk (digits.toList.take (digits.length - e)) ++ "." ++
       String.mk (digits.toList.drop (digits.length - e))

mutual

/-- Python `repr` of a value, restricted to the fragments these claims print
inside merge warnings (strings are rendered between single quotes without
escaping, as `repr` does for quote-free strings). -/
def pyRepr : PyVal → String
  | .none => "None"
  | .bool true => "True"
  | .bool false => "False"
  | .int n => toString n
  | .float m e => floatRepr m e
  | .str s => "'" ++ s ++ "'"
  | .list l => "[" ++ pyReprList l ++ "]"
  | .dict d => "\x7b" ++ pyReprEntries d ++ "\x7d"
termination_by v => sizeOf v
decreasing_by all_goals (simp_wf <;> omega)

/-- Comma-separated `repr`s of list elements. -/
def pyReprList : List PyVal → String
  | [] => ""
  | [x] => pyRepr x
  | x :: xs => pyRepr x ++ ", " ++ pyReprList xs
termination_by l => sizeOf l
decreasing_by all_goals (simp_wf <;> omega)

/-- Comma-separated `repr`s of dict entries. -/
def pyReprEntries : PyDict → String
  | [] => ""
  | [(k, v)] => "'" ++ k ++ "': " ++ pyRepr v
  | (k, v) :: rest => "'" ++ k ++ "': " ++ pyRepr v ++ ", " ++ pyReprEntries rest
termination_by d => sizeOf d
decreasing_by all_goals (simp_wf <;> omega)

end

/-- Python `str(v)` as used by f-string interpolation: the raw string for
strings, `repr` otherwise. -/
def pyStr : PyVal → String
  | .str s => s
  | v => pyRepr v

/-- Whitespace characters recognised while parsing literals. -/
def isWsChar (c : Char) : Bool :=
  c = ' ' || c = '\t' || c = '\n' || c = '\r'

/-- Skip leading whitespace. -/
def skipWs (cs : List Char) : List Char :=
  cs.dropWhile isWsChar

/-- Digit run to a natural number (most significant first). -/
def digitsToNat (ds : List Char) : Nat :=
  ds.foldl (fun acc c => acc * 10 + (c.toNat - '0'.toNat)) 0

/-- Parse a Python numeric literal: optional sign, then digits with an
optional fractional part (`12`, `-3`, `1.5`, `1.`, `.5`).  Exponent and
radix notations are outside the modelled fragment. -/
def parseNumber (cs : List Char) : Option (PyVal × List Char) :=
  let (sign, cs1) :=
    match cs with
    | '-' :: rest => ((-1 : Int), rest)
    | '+' :: rest => ((1 : Int), rest)
    | rest => ((1 : Int), rest)
  let intDigits := cs1.takeWhile (fun c => c.isDigit)
  let cs2 := cs1.dropWhile (fun c => c.isDigit)
  match cs2 with
  | '.' :: cs3 =>
      let fracDigits := cs3.takeWhile (fun c => c.isDigit)
      let cs4 := cs3.dropWhile (fun c => c.isDigit)
      if intDigits.isEmpty && fracDigits.isEmpty then Option.none
      else
        let m := sign * (Int.ofNat (digitsToNat (intDigits ++ fracDigits)))
        some (.float m fracDigits.length, cs4)
  | _ =>
      if intDigits.isEmpty then Option.none
      else some (.int (sign * Int.ofNat (digitsToNat intDigits)), cs2)

/-- Parse a quoted string literal delimited by `q`; escape sequences are
outside the modelled fragment (a backslash is taken literally). -/
def parseStrLit (q : Char) (cs : List Char) : Option (PyVal × List Char) :=
  let body := cs.takeWhile (fun c => c ≠ q)
  match cs.dropWhile (fun c => c ≠ q) with
  | c :: rest => if c = q then some (.str (String.mk body), rest) else Option.none
  | [] => Option.none

mutual

/-- Parse one literal value starting at `cs` (leading whitespace allowed),
returning it with the unconsumed remainder.  Fuel bounds the nesting and is
chosen large enough by `literal_eval`. -/
def parseVal (fuel : Nat) (cs : List Char) : Option (PyVal × List Char) :=
  match fuel with
  | 0 => Option.none
  | fuel + 1 =>
    match skipWs cs with
    | 'T' :: 'r' :: 'u' :: 'e' :: rest => some (.bool true, rest)
    | 'F' :: 'a' :: 'l' :: 's' :: 'e' :: rest => some (.bool false, rest)
    | 'N' :: 'o' :: 'n' :: 'e' :: rest => some (.none, rest)
    | '\'' :: rest => parseStrLit '\'' rest
    | '"' :: rest => parseStrLit '"' rest
    | '[' :: rest =>
        (match skipWs rest with
         | ']' :: rest1 => some (.list [], rest1)
         | rest1 =>
             match parseListElems fuel rest1 with
             | some (l, rest2) => some (.list l, rest2)
             | Option.none => Option.none)
    | '\x7b' :: rest =>
        (match skipWs rest with
         | '\x7d' :: rest1 => some (.dict [], rest1)
         | rest1 =>
             match parseDictElems fuel rest1 with
             | some (d, rest2) => some (.dict d, rest2)
             | Option.none => Option.none)
    | rest => parseNumber rest

/-- Parse the comma-separated elements of a non-empty list literal, up to and
including the closing bracket (trailing commas allowed, as in Python). -/
def parseListElems (fuel : Nat) (cs : List Char) : Option (List PyVal × List Char) :=
  match fuel with
  | 0 => Option.none
  | fuel + 1 =>
    match parseVal fuel cs with
    | Option.none => Option.none
    | some (v, rest) =>
        match skipWs rest with
        | ']' :: rest1 => some ([v], rest1)
        | ',' :: rest1 =>
            (match skipWs rest1 with
             | ']' :: rest2 => some ([v], rest2)
             | rest2 =>
                 match parseListElems fuel rest2 with
                 | some (l, rest3) => some (v :: l, rest3)
                 | Option.none => Option.none)
        | _ => Option.none

/-- Parse the comma-separated `key: value` entries of a non-empty dict
literal, up to and including the closing brace.  Keys outside the modelled
fragment (non-string literals) are rejected. -/
def parseDictElems (fuel : Nat) (cs : List Char) : Option (PyDict × List Char) :=
  match fuel with
  | 0 => Option.none
  | fuel + 1 =>
    match parseVal fuel cs with
    | some (.str k, rest) =>
        (match skipWs rest with
         | ':' :: rest1 =>
             (match parseVal fuel rest1 with
              | Option.none => Option.none
              | some (v, rest2) =>
                  match skipWs rest2 with
                  | '\x7d' :: rest3 => some ([(k, v)], rest3)
                  | ',' :: rest3 =>
                      (match skipWs rest3 with
                       | '\x7d' :: rest4 => some ([(k, v)], rest4)
                       | rest4 =>
                           match parseDictElems fuel rest4 with
                           | some (d, rest5) => some ((k, v) :: d, rest5)
                           | Option.none => Option.none)
                  | _ => Option.none)
         | _ => Option.none)
    | _ => Option.none

end

/-- Model of Python `ast.literal_eval` restricted to the literal fragment the
j2gpp variable machinery exercises: integers, floats, booleans, `None`,
quoted strings without escape sequences, and lists and string-keyed dicts of
these.  `Option.none` models the evaluator raising (`ValueError`,
`SyntaxError`, ...). -/
def literal_eval (s : String) : Option PyVal :=
  match parseVal (s.length + 1) s.toList with
  | some (v, rest) => if skipWs rest = [] then some v else Option.none
  | Option.none => Option.none

/-- Embedding of `auto_cast_str` (src/j2gpp/utils.py, lines 213-218): try
`ast.literal_eval`, and on any failure keep the original string. -/
def auto_cast_str (val : String) : PyVal :=
  match literal_eval val with
  | some v => v
  | Option.none => .str val

example : literal_eval "8080" = some (.int 8080) := by rfl
example : literal_eval "-3" = some (.int (-3)) := by rfl
example : literal_eval "1.5" = some (.float 15 1) := by rfl
example : literal_eval "'hi'" = some (.str "hi") := by rfl
example : literal_eval "hello" = Option.none := by rfl
example : literal_eval "[1, 2]" = some (.list [.int 1, .int 2]) := by rfl
example : literal_eval "\x7b'a': 1\x7d" = some (.dict [("a", .int 1)]) := by rfl
example : auto_cast_str "8080" = .int 8080 := by rfl
example : auto_cast_str "hello" = .str "hello" := by rfl

/-- First character of an identifier match: `[a-zA-Z_]`. -/
def isIdentStart (c : Char) : Bool :=
  ('a' ≤ c && c ≤ 'z') || ('A' ≤ c && c ≤ 'Z') || c = '_'

/-- Later characters of an identifier match: `[a-zA-Z0-9_]`. -/
def isIdentChar (c : Char) : Bool :=
  isIdentStart c || c.isDigit

/-- One match attempt, at the head of `cs`, of the pattern
`q([^q]*)q:\s*([a-zA-Z_][a-zA-Z0-9_]*)` with replacement `q\1q: q\2q`
(`q` a quote character): the "quoted key with unquoted value" substitutions
of `var_dict_update` (src/j2gpp/utils.py, lines 271-273).  Returns the
replacement text and the unconsumed remainder. -/
def tryQuotedKeySub (q : Char) (cs : List Char) : Option (List Char × List Char) :=
  match cs with
  | c :: cs1 =>
    if c = q then
      let inner := cs1.takeWhile (fun x => x ≠ q)
      match cs1.dropWhile (fun x => x ≠ q) with
      | c1 :: ':' :: cs2 =>
          if c1 = q then
            match cs2.dropWhile isWsChar with
            | d :: cs3 =>
                if isIdentStart d then
                  let word := d :: cs3.takeWhile isIdentChar
                  let rem := cs3.dropWhile isIdentChar
                  some ((q :: inner) ++ [q, ':', ' '] ++ (q :: word) ++ [q], rem)
                else Option.none
            | [] => Option.none
          else Option.none
      | _ => Option.none
    else Option.none
  | [] => Option.none

/-- One match attempt of `([a-zA-Z_][a-zA-Z0-9_]*):\s*([a-zA-Z_][a-zA-Z0-9_]*)`
with replacement `"\1": "\2"`: the "unquoted key with unquoted value"
substitution (src/j2gpp/utils.py, line 275). -/
def tryUnquotedKeySub (cs : List Char) : Option (List Char × List Char) :=
  match cs with
  | c :: cs1 =>
    if isIdentStart c then
      let keyChars := c :: cs1.takeWhile isIdentChar
      match (cs1.dropWhile isIdentChar) with
      | ':' :: cs2 =>
          (match cs2.dropWhile isWsChar with
           | d :: cs3 =>
               if isIdentStart d then
                 let word := d :: cs3.takeWhile isIdentChar
                 let rem := cs3.dropWhile isIdentChar
                 some (('"' :: keyChars) ++ ['"', ':', ' ', '"'] ++ word ++ ['"'], rem)
               else Option.none
           | [] => Option.none)
      | _ => Option.none
    else Option.none
  | [] => Option.none

/-- One match attempt of `:\s*"(\d+(?:\.\d+)?)"` with replacement `: \1`:
unquoting numbers (src/j2gpp/utils.py, line 277). -/
def tryNumberUnquoteSub (cs : List Char) : Option (List Char × List Char) :=
  match cs with
  | ':' :: cs1 =>
    (match cs1.dropWhile isWsChar with
     | '"' :: cs2 =>
         let intDigits := cs2.takeWhile Char.isDigit
         if intDigits.isEmpty then Option.none
         else
           let cs3 := cs2.dropWhile Char.isDigit
           let (numChars, cs4) :=
             match cs3 with
             | '.' :: cs3a =>
                 let fracDigits := cs3a.takeWhile Char.isDigit
                 if fracDigits.isEmpty then (intDigits, cs3)
                 else (intDigits ++ '.' :: fracDigits, cs3a.dropWhile Char.isDigit)
             | _ => (intDigits, cs3)
           match cs4 with
           | '"' :: rem => some ((':' :: ' ' :: numChars), rem)
           | _ => Option.none
     | _ => Option.none)
  | _ => Option.none

/-- One match attempt of `:\s*"(True|False|None)"` with replacement `: \1`:
unquoting Python booleans and `None` (src/j2gpp/utils.py, line 278). -/
def tryConstUnquoteSub (cs : List Char) : Option (List Char × List Char) :=
  match cs with
  | ':' :: cs1 =>
    (match cs1.dropWhile isWsChar with
     | '"' :: 'T' :: 'r' :: 'u' :: 'e' :: '"' :: rem =>
         some ([':', ' ', 'T', 'r', 'u', 'e'], rem)
     | '"' :: 'F' :: 'a' :: 'l' :: 's' :: 'e' :: '"' :: rem =>
         some ([':', ' ', 'F', 'a', 'l', 's', 'e'], rem)
     | '"' :: 'N' :: 'o' :: 'n' :: 'e' :: '"' :: rem =>
         some ([':', ' ', 'N', 'o', 'n', 'e'], rem)
     | _ => Option.none)
  | _ => Option.none

/-- `re.sub` driver: scan left to right, replacing each leftmost
non-overlapping match found by `attempt` and resuming after it.  `fuel`
bounds the scan; every step consumes at least one character, so the
caller's choice of the input length is always sufficient. -/
def reSubGo (attempt : List Char → Option (List Char × List Char))
    (fuel : Nat) (cs : List Char) : List Char :=
  match fuel with
  | 0 => cs
  | fuel + 1 =>
    match cs with
    | [] => []
    | c :: rest =>
      match attempt (c :: rest) with
      | some (replaced, rem) => replaced ++ reSubGo attempt fuel rem
      | Option.none => c :: reSubGo attempt fuel rest

/-- `re.sub` over a string. -/
def reSub (attempt : List Char → Option (List Char × List Char)) (s : String) : String :=
  String.mk (reSubGo attempt s.toList.length s.toList)

/-- Python `str.replace` on character lists: replace each leftmost
non-overlapping occurrence of `pat` (non-empty) by `repl`.  `fuel` bounds the
scan; the input length is always sufficient. -/
def replaceSub (pat repl : List Char) (fuel : Nat) (cs : List Char) : List Char :=
  match fuel with
  | 0 => cs
  | fuel + 1 =>
    match cs with
    | [] => []
    | c :: rest =>
      if pat ≠ [] && pat.isPrefixOf cs then
        repl ++ replaceSub pat repl fuel (cs.drop pat.length)
      else
        c :: replaceSub pat repl fuel rest

/-- Python `s.replace(pat, repl)`. -/
def pyReplace (s pat repl : String) : String :=
  String.mk (replaceSub pat.toList repl.toList s.toList.length s.toList)

/-- Python `s.strip()`: drop whitespace from both ends. -/
def pyStrip (s : String) : String :=
  String.mk (((s.toList.dropWhile isWsChar).reverse.dropWhile isWsChar).reverse)

/-- The JSON-to-Python textual conversion of `var_dict_update`
(src/j2gpp/utils.py, lines 255 and 269): `true`/`false`/`null` become
`True`/`False`/`None`. -/
def jsonToPython (s : String) : String :=
  pyReplace (pyReplace (pyReplace s "true" "True") "false" "False") "null" "None"

/-- The "more flexible" string repair of `var_dict_update`
(src/j2gpp/utils.py, lines 267-278): starting again from the original
string, convert JSON constants, then quote unquoted values after
single-quoted, double-quoted and unquoted keys, then un-quote numbers,
booleans and `None`. -/
def regexFixStr (s : String) : String :=
  let s1 := jsonToPython s
  let s2 := reSub (tryQuotedKeySub '\'') s1
  let s3 := reSub (tryQuotedKeySub '"') s2
  let s4 := reSub tryUnquotedKeySub s3
  let s5 := reSub tryNumberUnquoteSub s4
  reSub tryConstUnquoteSub s5

/-- The `val_ori.strip().startswith('{') and val_ori.strip().endswith('}')`
guard of the string-merge special case (src/j2gpp/utils.py, line 241). -/
def looksLikeDict (s : String) : Bool :=
  let stripped := (pyStrip s).toList
  (match stripped with
   | c :: _ => c = '\x7b'
   | [] => false) &&
  (match stripped.reverse with
   | c :: _ => c = '\x7d'
   | [] => false)

/-- The three-stage parse cascade of the string-merge special case
(src/j2gpp/utils.py, lines 242-288): try `ast.literal_eval` on the string
itself, then on its JSON-to-Python conversion, then on the regex-repaired
string.  `some d` means some stage produced a mapping (which the merge then
recurses into); `Option.none` means the case falls through to
overwrite-with-warning, either because a stage parsed a non-mapping or
because all stages failed. -/
def dictMergeCascade (valOri : String) : Option PyDict :=
  match literal_eval valOri with
  | some (.dict d) => some d
  | some _ => Option.none
  | Option.none =>
    match literal_eval (jsonToPython valOri) with
    | some (.dict d) => some d
    | some _ => Option.none
    | Option.none =>
      match literal_eval (regexFixStr valOri) with
      | some (.dict d) => some d
      | _ => Option.none

/-- The conflict warning text of `var_dict_update` (src/j2gpp/utils.py,
lines 250, 261, 284, 288, 291), with Python `str()` of the two values. -/
def overwriteWarning (val_scope key : String) (valOri val : PyVal) (context : String) : String :=
  "Variable '" ++ val_scope ++ key ++ "' got overwritten from '" ++ pyStr valOri ++
    "' to '" ++ pyStr val ++ "'" ++ context ++ "."

mutual

/-- Embedding of `var_dict_update` (src/j2gpp/utils.py, lines 229-294): merge
`var_dict2` into a copy of `var_dict1`, recursing when both sides hold
mappings, attempting the string-parse special case when the original value
is a string that looks like a mapping, and otherwise overwriting with a
warning.  Returns the merged dict together with the warnings emitted, in
order.  Note that the Python code rebinds the `val_scope` local inside its
loop; `goEntries` reproduces this by threading the rebound scope to the
remaining iterations. -/
def var_dict_update (var_dict1 var_dict2 : PyDict) (val_scope context : String) :
    PyDict × List String :=
  goEntries var_dict1 var_dict2 var_dict1 val_scope context
termination_by (sizeOf var_dict2, 1)

/-- The `for key, val in var_dict2.items()` loop of `var_dict_update`,
with the loop-carried result dict (seeded with `var_dict1.copy()`) and the
loop-carried — and, in the nested-dict branch, rebound — `val_scope`. -/
def goEntries (var_dict1 entries res : PyDict) (val_scope context : String) :
    PyDict × List String :=
  match entries with
  | [] => (res, [])
  | (key, val) :: rest =>
    match lookupAssoc var_dict1 key with
    | some val_ori =>
      if pyEq val_ori val then
        goEntries var_dict1 rest (dictSet res key val) val_scope context
      else
        (match val_ori, val with
         | .dict dOri, .dict dVal =>
             let val_scope1 := val_scope ++ key ++ "."
             let sub := var_dict_update dOri dVal val_scope1 context
             let tail := goEntries var_dict1 rest (dictSet res key (.dict sub.1)) val_scope1 context
             (tail.1, sub.2 ++ tail.2)
         | .str s, .dict dVal =>
             if looksLikeDict s then
               match dictMergeCascade s with
               | some parsed =>
                   let sub := var_dict_update parsed dVal val_scope context
                   let tail := goEntries var_dict1 rest (dictSet res key (.dict sub.1)) val_scope context
                   (tail.1, sub.2 ++ tail.2)
               | Option.none =>
                   let w := overwriteWarning val_scope key val_ori val context
                   let tail := goEntries var_dict1 rest (dictSet res key val) val_scope context
                   (tail.1, w :: tail.2)
             else
               let w := overwriteWarning val_scope key val_ori val context
               let tail := goEntries var_dict1 rest (dictSet res key val) val_scope context
               (tail.1, w :: tail.2)
         | _, _ =>
             let w := overwriteWarning val_scope key val_ori val context
             let tail := goEntries var_dict1 rest (dictSet res key val) val_scope context
             (tail.1, w :: tail.2))
    | Option.none =>
        goEntries var_dict1 rest (dictSet res key val) val_scope context
termination_by (sizeOf entries, 0)
decreasing_by all_goals (simp_wf <;> omega)

end

@[simp]
theorem lookupAssoc_dictSet_self (d : PyDict) (k : String) (v : PyVal) :
    lookupAssoc (dictSet d k v) k = some v := by
  induction d with
  | nil => simp [dictSet, lookupAssoc]
  | cons e rest ih =>
      obtain ⟨k1, w⟩ := e
      by_cases h : k1 = k <;> simp [dictSet, lookupAssoc, h, ih]

theorem lookupAssoc_dictSet_ne (d : PyDict) (k k2 : String) (v : PyVal) (h : k2 ≠ k) :
    lookupAssoc (dictSet d k v) k2 = lookupAssoc d k2 := by
  have hne : ¬ k = k2 := fun h2 => h h2.symm
  induction d with
  | nil => simp [dictSet, lookupAssoc, hne]
  | cons e rest ih =>
      obtain ⟨k1, w⟩ := e
      by_cases h1 : k1 = k
      · subst h1
        simp [dictSet, lookupAssoc, hne]
      · by_cases h2 : k1 = k2
        · subst h2
          simp [dictSet, lookupAssoc, h1]
        · simp [dictSet, lookupAssoc, h1, h2, ih]

theorem pyEq_not_dict_dict (v : PyVal) (d : PyDict) (h : ∀ d0 : PyDict, v ≠ .dict d0) :
    pyEq v (.dict d) = false := by
  cases v with
  | dict d0 => exact absurd rfl (h d0)
  | none => simp [pyEq, asNum]
  | bool b => simp [pyEq, asNum]
  | int n => simp [pyEq, asNum]
  | float m e => simp [pyEq, asNum]
  | str s => simp [pyEq, asNum]
  | list l => simp [pyEq, asNum]

theorem goEntries_fst_scope_free : ∀ (d1 e r : PyDict) (s c s2 c2 : String),
    (goEntries d1 e r s c).1 = (goEntries d1 e r s2 c2).1 := by
  intro d1 e r s c
  refine goEntries.induct
    (fun d1 d2 s c => ∀ s2 c2,
      (var_dict_update d1 d2 s c).1 = (var_dict_update d1 d2 s2 c2).1)
    (fun d1 e r s c => ∀ s2 c2,
      (goEntries d1 e r s c).1 = (goEntries d1 e r s2 c2).1)
    ?_ ?_ ?_ ?_ ?_ ?_ ?_ ?_ ?_ d1 e r s c
  · intro d1 d2 s c ih s2 c2
    simp only [var_dict_update]
    exact ih s2 c2
  · intro d1 r s c s2 c2
    simp [goEntries]
  · intro d1 r s c k1 v rest w hlook hpy ih s2 c2
    simp only [goEntries, hlook, hpy, if_true]
    exact ih s2 c2
  · intro d1 r s c k1 rest dOri dVal vs1 sub hlook hpy ih1 ih1b ih2 s2 c2
    simp only [goEntries, hlook, hpy, if_false]
    rw [← ih1b (s2 ++ k1 ++ ".") c2]
    exact ih2 (s2 ++ k1 ++ ".") c2
  · intro d1 r s c k1 rest sl dVal hlooks parsed hcasc sub hlook hpy ih1 ih2 s2 c2
    simp only [goEntries, hlook, hpy, if_false, hlooks, hcasc]
    rw [← ih1 s2 c2]
    exact ih2 s2 c2
  · intro d1 r s c k1 rest sl dVal hlooks hcasc hlook hpy ih s2 c2
    simp only [goEntries, hlook, hpy, if_false, hlooks, hcasc]
    exact ih s2 c2
  · intro d1 r s c k1 rest sl dVal hlooks hlook hpy ih s2 c2
    simp only [goEntries, hlook, hpy, if_false, hlooks]
    exact ih s2 c2
  · intro d1 r s c k1 v rest w hlook hpy hnotdict hnotstr ih s2 c2
    simp only [goEntries, hlook, hpy, if_false]
    rcases w with _ | b | n | ⟨m, e⟩ | sl | l | dd <;>
      rcases v with _ | b2 | n2 | ⟨m2, e2⟩ | s2v | l2 | dd2 <;>
      first
        | (exact absurd rfl (hnotdict dd dd2 rfl))
        | (exact absurd rfl (hnotstr sl dd2 rfl))
        | (exact ih s2 c2)
        | skip
  · intro d1 r s c k1 v rest hlook ih s2 c2
    simp only [goEntries, hlook]
    exact ih s2 c2

theorem var_dict_update_fst_scope_free (d1 d2 : PyDict) (s c s2 c2 : String) :
    (var_dict_update d1 d2 s c).1 = (var_dict_update d1 d2 s2 c2).1 := by
  simp only [var_dict_update]
  exact goEntries_fst_scope_free d1 d2 d1 s c s2 c2

theorem goEntries_lookup_of_not_mem (k : String) :
    ∀ (d1 e r : PyDict) (s c : String), (∀ p ∈ e, p.1 ≠ k) →
      lookupAssoc (goEntries d1 e r s c).1 k = lookupAssoc r k := by
  intro d1 e r s c
  refine goEntries.induct
    (fun _ _ _ _ => True)
    (fun d1 e r s c => (∀ p ∈ e, p.1 ≠ k) →
      lookupAssoc (goEntries d1 e r s c).1 k = lookupAssoc r k)
    ?_ ?_ ?_ ?_ ?_ ?_ ?_ ?_ ?_ d1 e r s c
  · intro _ _ _ _ _
    trivial
  · intro d1 r s c _
    simp [goEntries]
  · intro d1 r s c k1 v rest w hlook hpy ih hne
    have hk : k ≠ k1 := fun h => hne (k1, v) (by simp) (by simp [h])
    have step := ih (fun p hp => hne p (by simp [hp]))
    rw [lookupAssoc_dictSet_ne _ _ _ _ hk] at step
    simp only [goEntries, hlook, hpy, if_true]
    exact step
  · intro d1 r s c k1 rest dOri dVal vs1 sub hlook hpy ih1 ih1b ih2 hne
    have hk : k ≠ k1 := fun h => hne (k1, .dict dVal) (by simp) (by simp [h])
    have step := ih2 (fun p hp => hne p (by simp [hp]))
    rw [lookupAssoc_dictSet_ne _ _ _ _ hk] at step
    simp only [goEntries, hlook]
    rw [if_neg hpy]
    exact step
  · intro d1 r s c k1 rest sl dVal hlooks parsed hcasc sub hlook hpy ih1 ih2 hne
    have hk : k ≠ k1 := fun h => hne (k1, .dict dVal) (by simp) (by simp [h])
    have step := ih2 (fun p hp => hne p (by simp [hp]))
    rw [lookupAssoc_dictSet_ne _ _ _ _ hk] at step
    simp only [goEntries, hlook, hlooks, hcasc]
    rw [if_neg hpy]
    exact step
  · intro d1 r s c k1 rest sl dVal hlooks hcasc hlook hpy ih hne
    have hk : k ≠ k1 := fun h => hne (k1, .dict dVal) (by simp) (by simp [h])
    have step := ih (fun p hp => hne p (by simp [hp]))
    rw [lookupAssoc_dictSet_ne _ _ _ _ hk] at step
    simp only [goEntries, hlook, hlooks, hcasc]
    rw [if_neg hpy]
    exact step
  · intro d1 r s c k1 rest sl dVal hlooks hlook hpy ih hne
    have hk : k ≠ k1 := fun h => hne (k1, .dict dVal) (by simp) (by simp [h])
    have step := ih (fun p hp => hne p (by simp [hp]))
    rw [lookupAssoc_dictSet_ne _ _ _ _ hk] at step
    simp only [goEntries, hlook, hlooks]
    rw [if_neg hpy]
    exact step
  · intro d1 r s c k1 v rest w hlook hpy hnotdict hnotstr ih hne
    have hk : k ≠ k1 := fun h => hne (k1, v) (by simp) (by simp [h])
    have step := ih (fun p hp => hne p (by simp [hp]))
    rw [lookupAssoc_dictSet_ne _ _ _ _ hk] at step
    rcases w with _ | b | n | ⟨m, e⟩ | sl | l | dd <;>
      rcases v with _ | b2 | n2 | ⟨m2, e2⟩ | s2v | l2 | dd2 <;>
      first
        | (exact absurd rfl (hnotdict dd dd2 rfl))
        | (exact absurd rfl (hnotstr sl dd2 rfl))
        | (simp only [goEntries, hlook]; rw [if_neg hpy]; exact step)
        | skip
  · intro d1 r s c k1 v rest hlook ih hne
    have hk : k ≠ k1 := fun h => hne (k1, v) (by simp) (by simp [h])
    have step := ih (fun p hp => hne p (by simp [hp]))
    rw [lookupAssoc_dictSet_ne _ _ _ _ hk] at step
    simp only [goEntries, hlook]
    exact step

theorem goEntries_lookup_dict_conflict (k : String) (dA dB : PyDict) :
    ∀ (d1 e r : PyDict) (s c : String),
      (e.map Prod.fst).Nodup →
      lookupAssoc e k = some (.dict dB) →
      lookupAssoc d1 k = some (.dict dA) →
      pyEq (.dict dA) (.dict dB) = false →
      lookupAssoc (goEntries d1 e r s c).1 k =
        some (.dict (var_dict_update dA dB "" "").1) := by
  intro d1 e r s c
  refine goEntries.induct
    (fun _ _ _ _ => True)
    (fun d1 e r s c =>
      (e.map Prod.fst).Nodup →
      lookupAssoc e k = some (.dict dB) →
      lookupAssoc d1 k = some (.dict dA) →
      pyEq (.dict dA) (.dict dB) = false →
      lookupAssoc (goEntries d1 e r s c).1 k =
        some (.dict (var_dict_update dA dB "" "").1))
    ?_ ?_ ?_ ?_ ?_ ?_ ?_ ?_ ?_ d1 e r s c
  · intro _ _ _ _ _
    trivial
  · intro d1 r s c _ he _ _
    simp [lookupAssoc] at he
  · intro d1 r s c k1 v rest w hlook hpy ih hnd he hA hpyF
    by_cases hk : k1 = k
    · subst hk
      simp [lookupAssoc] at he
      subst he
      have hw : w = PyVal.dict dA := Option.some.inj (hlook.symm.trans hA)
      subst hw
      rw [hpyF] at hpy
      exact Bool.noConfusion hpy
    · simp only [lookupAssoc, hk, if_false] at he
      rw [List.map_cons] at hnd
      simp only [goEntries, hlook, hpy, if_true]
      exact ih (List.nodup_cons.mp hnd).2 he hA hpyF
  · intro d1 r s c k1 rest dOri dVal vs1 sub hlook hpy ih1 ih1b ih2 hnd he hA hpyF
    by_cases hk : k1 = k
    · subst hk
      simp [lookupAssoc] at he
      subst he
      have hw : PyVal.dict dOri = PyVal.dict dA := Option.some.inj (hlook.symm.trans hA)
      have hd : dOri = dA := by injection hw
      subst hd
      rw [List.map_cons] at hnd
      have hnotmem := (List.nodup_cons.mp hnd).1
      have hne2 : ∀ p ∈ rest, p.1 ≠ k1 := by
        intro p hp h
        have hmem : p.1 ∈ rest.map Prod.fst := List.mem_map_of_mem Prod.fst hp
        exact hnotmem (h ▸ hmem)
      simp only [goEntries, hlook]
      rw [if_neg hpy]
      rw [goEntries_lookup_of_not_mem k1 d1 rest _ _ _ hne2, lookupAssoc_dictSet_self]
      rw [var_dict_update_fst_scope_free dOri dVal (s ++ k1 ++ ".") c "" ""]
    · simp only [lookupAssoc, hk, if_false] at he
      rw [List.map_cons] at hnd
      simp only [goEntries, hlook]
      rw [if_neg hpy]
      exact ih2 (List.nodup_cons.mp hnd).2 he hA hpyF
  · intro d1 r s c k1 rest sl dVal hlooks parsed hcasc sub hlook hpy ih1 ih2 hnd he hA hpyF
    by_cases hk : k1 = k
    · subst hk
      rw [hA] at hlook
      cases hlook
    · simp only [lookupAssoc, hk, if_false] at he
      rw [List.map_cons] at hnd
      simp only [goEntries, hlook, hlooks, hcasc]
      rw [if_neg hpy]
      exact ih2 (List.nodup_cons.mp hnd).2 he hA hpyF
  · intro d1 r s c k1 rest sl dVal hlooks hcasc hlook hpy ih hnd he hA hpyF
    by_cases hk : k1 = k
    · subst hk
      rw [hA] at hlook
      cases hlook
    · simp only [lookupAssoc, hk, if_false] at he
      rw [List.map_cons] at hnd
      simp only [goEntries, hlook, hlooks, hcasc]
      rw [if_neg hpy]
      exact ih (List.nodup_cons.mp hnd).2 he hA hpyF
  · intro d1 r s c k1 rest sl dVal hlooks hlook hpy ih hnd he hA hpyF
    by_cases hk : k1 = k
    · subst hk
      rw [hA] at hlook
      cases hlook
    · simp only [lookupAssoc, hk, if_false] at he
      rw [List.map_cons] at hnd
      simp only [goEntries, hlook, hlooks]
      rw [if_neg hpy]
      exact ih (List.nodup_cons.mp hnd).2 he hA hpyF
  · intro d1 r s c k1 v rest w hlook hpy hnotdict hnotstr ih hnd he hA hpyF
    by_cases hk : k1 = k
    · subst hk
      simp [lookupAssoc] at he
      subst he
      have hw : w = PyVal.dict dA := Option.some.inj (hlook.symm.trans hA)
      exact (hnotdict dA dB hw rfl).elim
    · simp only [lookupAssoc, hk, if_false] at he
      rw [List.map_cons] at hnd
      simp only [goEntries, hlook]
      rw [if_neg hpy]
      exact ih (List.nodup_cons.mp hnd).2 he hA hpyF
  · intro d1 r s c k1 v rest hlook ih hnd he hA hpyF
    by_cases hk : k1 = k
    · subst hk
      rw [hA] at hlook
      cases hlook
    · simp only [lookupAssoc, hk, if_false] at he
      rw [List.map_cons] at hnd
      simp only [goEntries, hlook]
      exact ih (List.nodup_cons.mp hnd).2 he hA hpyF

/-- C1: whenever the base and the incoming mapping both hold a mapping (with
differing contents, i.e. not Python-equal) at the same key, `var_dict_update`
recurses at that key and stores the recursive merge of the two sub-mappings
rather than the incoming sub-mapping wholesale; and on the example
`merge(\x7bx:\x7ba:1\x7d\x7d, \x7bx:\x7bb:2\x7d\x7d)` the result is
`\x7bx:\x7ba:1,b:2\x7d\x7d` with no warning emitted. -/
theorem merge_recurses_into_nested_mappings :
    (∀ (A B : PyDict) (k : String) (dA dB : PyDict) (s c : String),
      (B.map Prod.fst).Nodup →
      lookupAssoc A k = some (.dict dA) →
      lookupAssoc B k = some (.dict dB) →
      pyEq (.dict dA) (.dict dB) = false →
      lookupAssoc (var_dict_update A B s c).1 k =
        some (.dict (var_dict_update dA dB "" "").1)) ∧
    var_dict_update [("x", .dict [("a", .int 1)])] [("x", .dict [("b", .int 2)])] "" "" =
      ([("x", .dict [("a", .int 1), ("b", .int 2)])], []) := by
  constructor
  · intro A B k dA dB s c hnd hA hB hpy
    have h2 := goEntries_lookup_dict_conflict k dA dB A B A s c hnd hB hA hpy
    simpa [var_dict_update] using h2
  · simp [var_dict_update, goEntries, lookupAssoc, dictSet, dictContains, pyEq, asNum,
          pyEqEntries, pyEqList]

/-- Witness for C1: the general statement applied at the spec example, with
its hypotheses discharged concretely. -/
theorem merge_recurses_into_nested_mappings_witness :
    lookupAssoc (var_dict_update [("x", .dict [("a", .int 1)])]
        [("x", .dict [("b", .int 2)])] "pre." " ctx").1 "x" =
      some (.dict [("a", .int 1), ("b", .int 2)]) := by
  have h := merge_recurses_into_nested_mappings.1 [("x", .dict [("a", .int 1)])]
    [("x", .dict [("b", .int 2)])] "x" [("a", .int 1)] [("b", .int 2)] "pre." " ctx"
    (by simp) (by simp [lookupAssoc]) (by simp [lookupAssoc])
    (by simp [pyEq, pyEqEntries, lookupAssoc])
  rw [h]
  simp [var_dict_update, goEntries, lookupAssoc, dictSet, dictContains, pyEq, asNum,
        pyEqEntries, pyEqList]

/-- Counterexample to C2: when the base value is the string `"\x7b'a': 1\x7d"`
(a non-mapping) and the incoming value is the mapping `\x7bb: 2\x7d`,
`var_dict_update` does NOT adopt the incoming value and emits NO warning:
it silently parses the string and merges into the parsed mapping
(src/j2gpp/utils.py, lines 241-247). -/
theorem mapping_vs_string_merge_cex :
    (var_dict_update [("k", .str "\x7b'a': 1\x7d")] [("k", .dict [("b", .int 2)])] "" "").2
      = [] ∧
    lookupAssoc (var_dict_update [("k", .str "\x7b'a': 1\x7d")]
        [("k", .dict [("b", .int 2)])] "" "").1 "k"
      = some (.dict [("a", .int 1), ("b", .int 2)]) ∧
    some (PyVal.dict [("a", .int 1), ("b", .int 2)]) ≠
      some (PyVal.dict [("b", .int 2)]) := by
  have hc : dictMergeCascade "\x7b'a': 1\x7d" = some [("a", .int 1)] := by rfl
  have hl : looksLikeDict "\x7b'a': 1\x7d" = true := by rfl
  refine ⟨?_, ?_, by simp⟩ <;>
    simp [var_dict_update, goEntries, lookupAssoc, dictSet, dictContains, pyEq, asNum,
          pyEqEntries, pyEqList, hc, hl]

/-- The evolution of the loop-local `val_scope` across the iterations of
`var_dict_update`'s loop: only the nested-mapping branch rebinds it
(src/j2gpp/utils.py, line 238), and the rebound value persists for all later
iterations of the same call (the C3 scope pollution).  `loopScope d1 s pre`
is the scope the loop carries after processing the entries `pre`. -/
def loopScope (var_dict1 : PyDict) (s : String) : PyDict → String
  | [] => s
  | (key, val) :: rest =>
    match lookupAssoc var_dict1 key with
    | some val_ori =>
      if pyEq val_ori val then loopScope var_dict1 s rest
      else
        match val_ori, val with
        | .dict _, .dict _ => loopScope var_dict1 (s ++ key ++ ".") rest
        | _, _ => loopScope var_dict1 s rest
    | Option.none => loopScope var_dict1 s rest

/-- A mapping never compares Python-equal to a non-mapping (mapping on the
left). -/
theorem pyEq_dict_not_dict (d : PyDict) (v : PyVal) (h : ∀ d0 : PyDict, v ≠ .dict d0) :
    pyEq (.dict d) v = false := by
  cases v with
  | dict d0 => exact absurd rfl (h d0)
  | none => simp [pyEq, asNum]
  | bool b => simp [pyEq, asNum]
  | int n => simp [pyEq, asNum]
  | float m e => simp [pyEq, asNum]
  | str s => simp [pyEq, asNum]
  | list l => simp [pyEq, asNum]

/-- The warnings of the merge loop do not depend on the accumulated result
dict: branching and warning texts only consult `var_dict1`, the incoming
entries and the scope. -/
theorem goEntries_snd_res_free (d1 : PyDict) :
    ∀ (e r : PyDict) (s c : String) (r2 : PyDict),
      (goEntries d1 e r s c).2 = (goEntries d1 e r2 s c).2 := by
  intro e
  induction e with
  | nil =>
      intro r s c r2
      simp [goEntries]
  | cons p rest ih =>
      obtain ⟨k1, v1⟩ := p
      intro r s c r2
      rcases hlook : lookupAssoc d1 k1 with _ | w
      · simp only [goEntries, hlook]
        exact ih (dictSet r k1 v1) s c (dictSet r2 k1 v1)
      by_cases hpy : pyEq w v1 = true
      · simp only [goEntries, hlook, hpy, if_true]
        exact ih (dictSet r k1 v1) s c (dictSet r2 k1 v1)
      rcases w with _ | b | n | ⟨m, e0⟩ | sl | l | dO <;>
        rcases v1 with _ | b2 | n2 | ⟨m2, e2⟩ | s2v | l2 | dV <;>
        first
          | (simp only [goEntries, hlook, if_neg hpy]
             exact congrArg (HAppend.hAppend _) (ih _ (s ++ k1 ++ ".") c
               (dictSet r2 k1 (PyVal.dict (var_dict_update dO dV (s ++ k1 ++ ".") c).1))))
          | (simp only [goEntries, hlook, if_neg hpy]
             rcases hlooks : looksLikeDict sl with _ | _
             · simp only [hlooks, Bool.false_eq_true, if_false]
               exact congrArg (List.cons _) (ih _ s c (dictSet r2 k1 (PyVal.dict dV)))
             · simp only [hlooks, eq_self_iff_true, if_true]
               rcases hcasc : dictMergeCascade sl with _ | parsed
               · simp only [hcasc]
                 exact congrArg (List.cons _) (ih _ s c (dictSet r2 k1 (PyVal.dict dV)))
               · simp only [hcasc]
                 exact congrArg (HAppend.hAppend _) (ih _ s c
                   (dictSet r2 k1 (PyVal.dict (var_dict_update parsed dV s c).1))))
          | (simp only [goEntries, hlook, if_neg hpy]
             exact congrArg (List.cons _) (ih _ s c (dictSet r2 k1 _)))

/-- Decomposition of a merge around a mapping-vs-non-mapping conflict at key
`k` (no other incoming entry names `k`): the result adopts the incoming
value at `k`, and the warning list is exactly the warnings of the earlier
entries, then the single overwrite warning for `k` — whose dotted prefix is
the loop-carried scope after those earlier entries — then the warnings of
the later entries.  The hypothesis `hexc` excludes the dict-looking-string
parse special case, where the code silently recurses instead. -/
theorem goEntries_conflict_split (d1 : PyDict) (k : String) (vA vB : PyVal) (c : String)
    (hA : lookupAssoc d1 k = some vA)
    (hconf : (∃ dOri : PyDict, vA = .dict dOri ∧ ∀ dV : PyDict, vB ≠ .dict dV) ∨
      ((∀ dOri : PyDict, vA ≠ .dict dOri) ∧ ∃ dV : PyDict, vB = .dict dV))
    (hexc : ∀ sl, vA = .str sl → looksLikeDict sl = true →
      dictMergeCascade sl = Option.none) :
    ∀ (pre : PyDict), (∀ p ∈ pre, p.1 ≠ k) →
      ∀ (post : PyDict), (∀ p ∈ post, p.1 ≠ k) →
      ∀ (r : PyDict) (s : String),
      lookupAssoc (goEntries d1 (pre ++ (k, vB) :: post) r s c).1 k = some vB ∧
      (goEntries d1 (pre ++ (k, vB) :: post) r s c).2 =
        (goEntries d1 pre r s c).2 ++
          overwriteWarning (loopScope d1 s pre) k vA vB c ::
            (goEntries d1 post r (loopScope d1 s pre) c).2 := by
  intro pre
  induction pre with
  | nil =>
      intro _ post hpost r s
      rcases hconf with ⟨dO, rfl, hnb⟩ | ⟨hna, dV, rfl⟩
      · have hpyn : ¬ pyEq (PyVal.dict dO) vB = true := by
          simp [pyEq_dict_not_dict dO vB hnb]
        rcases vB with _ | b2 | n2 | ⟨m2, e2⟩ | s2v | l2 | dV <;>
          first
            | (exact absurd rfl (hnb dV))
            | (refine ⟨?_, ?_⟩
               · simp only [List.nil_append, goEntries, hA, if_neg hpyn]
                 rw [goEntries_lookup_of_not_mem k d1 post _ s c hpost]
                 exact lookupAssoc_dictSet_self r k _
               · simp only [List.nil_append, goEntries, hA, if_neg hpyn, loopScope]
                 rw [goEntries_snd_res_free d1 post (dictSet r k _) s c r])
      · have hpyn : ¬ pyEq vA (PyVal.dict dV) = true := by
          simp [pyEq_not_dict_dict vA dV hna]
        rcases vA with _ | b2 | n2 | ⟨m2, e2⟩ | sl | l2 | dO <;>
          first
            | (exact absurd rfl (hna dO))
            | (rcases hlooks : looksLikeDict sl with _ | _
               · refine ⟨?_, ?_⟩
                 · simp only [List.nil_append, goEntries, hA, if_neg hpyn, hlooks,
                     Bool.false_eq_true, if_false]
                   rw [goEntries_lookup_of_not_mem k d1 post _ s c hpost]
                   exact lookupAssoc_dictSet_self r k _
                 · simp only [List.nil_append, goEntries, hA, if_neg hpyn, hlooks,
                     Bool.false_eq_true, if_false, loopScope]
                   rw [goEntries_snd_res_free d1 post (dictSet r k _) s c r]
               · have hcasc : dictMergeCascade sl = Option.none := hexc sl rfl hlooks
                 refine ⟨?_, ?_⟩
                 · simp only [List.nil_append, goEntries, hA, if_neg hpyn, hlooks,
                     eq_self_iff_true, if_true, hcasc]
                   rw [goEntries_lookup_of_not_mem k d1 post _ s c hpost]
                   exact lookupAssoc_dictSet_self r k _
                 · simp only [List.nil_append, goEntries, hA, if_neg hpyn, hlooks,
                     eq_self_iff_true, if_true, hcasc, loopScope]
                   rw [goEntries_snd_res_free d1 post (dictSet r k _) s c r])
            | (refine ⟨?_, ?_⟩
               · simp only [List.nil_append, goEntries, hA, if_neg hpyn]
                 rw [goEntries_lookup_of_not_mem k d1 post _ s c hpost]
                 exact lookupAssoc_dictSet_self r k _
               · simp only [List.nil_append, goEntries, hA, if_neg hpyn, loopScope]
                 rw [goEntries_snd_res_free d1 post (dictSet r k _) s c r])
  | cons p pre ihp =>
      obtain ⟨k1, v1⟩ := p
      intro hpre post hpost r s
      have hpre2 : ∀ q ∈ pre, q.1 ≠ k := fun q hq => hpre q (by simp [hq])
      have H := ihp hpre2 post hpost
      rcases hlook : lookupAssoc d1 k1 with _ | w
      · refine ⟨?_, ?_⟩
        · simp only [List.cons_append, goEntries, hlook]
          exact (H (dictSet r k1 v1) s).1
        · simp only [List.cons_append, goEntries, hlook, loopScope]
          rw [(H (dictSet r k1 v1) s).2,
            goEntries_snd_res_free d1 post (dictSet r k1 v1) (loopScope d1 s pre) c r]
      by_cases hpy : pyEq w v1 = true
      · refine ⟨?_, ?_⟩
        · simp only [List.cons_append, goEntries, hlook, hpy, if_true]
          exact (H (dictSet r k1 v1) s).1
        · simp only [List.cons_append, goEntries, hlook, hpy, if_true, loopScope]
          rw [(H (dictSet r k1 v1) s).2,
            goEntries_snd_res_free d1 post (dictSet r k1 v1) (loopScope d1 s pre) c r]
      rcases w with _ | b | n | ⟨m, e0⟩ | sl | l | dO <;>
        rcases v1 with _ | b2 | n2 | ⟨m2, e2⟩ | s2v | l2 | dV <;>
        first
          | (refine ⟨?_, ?_⟩
             · simp only [List.cons_append, goEntries, hlook, if_neg hpy]
               exact (H (dictSet r k1 (PyVal.dict
                 (var_dict_update dO dV (s ++ k1 ++ ".") c).1)) (s ++ k1 ++ ".")).1
             · simp only [List.cons_append, goEntries, hlook, if_neg hpy, loopScope,
                 List.append_assoc]
               rw [(H (dictSet r k1 (PyVal.dict
                 (var_dict_update dO dV (s ++ k1 ++ ".") c).1)) (s ++ k1 ++ ".")).2,
                 goEntries_snd_res_free d1 post (dictSet r k1 (PyVal.dict
                   (var_dict_update dO dV (s ++ k1 ++ ".") c).1))
                   (loopScope d1 (s ++ k1 ++ ".") pre) c r])
          | (rcases hlooks : looksLikeDict sl with _ | _
             · refine ⟨?_, ?_⟩
               · simp only [List.cons_append, goEntries, hlook, if_neg hpy, hlooks,
                   Bool.false_eq_true, if_false]
                 exact (H (dictSet r k1 (PyVal.dict dV)) s).1
               · simp only [List.cons_append, goEntries, hlook, if_neg hpy, hlooks,
                   Bool.false_eq_true, if_false, loopScope]
                 rw [(H (dictSet r k1 (PyVal.dict dV)) s).2,
                   goEntries_snd_res_free d1 post (dictSet r k1 (PyVal.dict dV))
                     (loopScope d1 s pre) c r]
             · rcases hcasc : dictMergeCascade sl with _ | parsed
               · refine ⟨?_, ?_⟩
                 · simp only [List.cons_append, goEntries, hlook, if_neg hpy, hlooks,
                     eq_self_iff_true, if_true, hcasc]
                   exact (H (dictSet r k1 (PyVal.dict dV)) s).1
                 · simp only [List.cons_append, goEntries, hlook, if_neg hpy, hlooks,
                     eq_self_iff_true, if_true, hcasc, loopScope]
                   rw [(H (dictSet r k1 (PyVal.dict dV)) s).2,
                     goEntries_snd_res_free d1 post (dictSet r k1 (PyVal.dict dV))
                       (loopScope d1 s pre) c r]
               · refine ⟨?_, ?_⟩
                 · simp only [List.cons_append, goEntries, hlook, if_neg hpy, hlooks,
                     eq_self_iff_true, if_true, hcasc]
                   exact (H (dictSet r k1 (PyVal.dict
                     (var_dict_update parsed dV s c).1)) s).1
                 · simp only [List.cons_append, goEntries, hlook, if_neg hpy, hlooks,
                     eq_self_iff_true, if_true, hcasc, loopScope, List.append_assoc]
                   rw [(H (dictSet r k1 (PyVal.dict
                     (var_dict_update parsed dV s c).1)) s).2,
                     goEntries_snd_res_free d1 post (dictSet r k1 (PyVal.dict
                       (var_dict_update parsed dV s c).1)) (loopScope d1 s pre) c r])
          | (refine ⟨?_, ?_⟩
             · simp only [List.cons_append, goEntries, hlook, if_neg hpy]
               exact (H (dictSet r k1 _) s).1
             · simp only [List.cons_append, goEntries, hlook, if_neg hpy, loopScope]
               rw [(H (dictSet r k1 _) s).2,
                 goEntries_snd_res_free d1 post (dictSet r k1 _) (loopScope d1 s pre) c r])

/-- C2 (amended): for every merge whose incoming mapping holds, at some key
`k`, a value whose mapping-ness differs from the base's value at `k` (a
mapping on exactly one side), and which holds no other entry named `k`:
unless the base value is a dict-looking string that the heuristic parse
cascade reads as a mapping (then the merge silently recurses into the parsed
mapping instead — the counterexample), the merge adopts the incoming value at
`k`, and its warning list is exactly the warnings of the earlier incoming
entries, then ONE overwrite warning for `k`, then the warnings of the later
incoming entries.  The dotted prefix of that warning is the loop-carried
scope `loopScope` — the caller's prefix extended by `key + "."` for every
EARLIER same-call key that triggered a nested-mapping recursion — so it names
the key's true path only in the absence of the C3 scope pollution. -/
theorem mapping_vs_nonmapping_conflict (A pre post : PyDict) (k : String)
    (vA vB : PyVal) (s c : String)
    (hnd : ((pre ++ (k, vB) :: post).map Prod.fst).Nodup)
    (hA : lookupAssoc A k = some vA)
    (hconf : (∃ dOri : PyDict, vA = .dict dOri ∧ ∀ dV : PyDict, vB ≠ .dict dV) ∨
      ((∀ dOri : PyDict, vA ≠ .dict dOri) ∧ ∃ dV : PyDict, vB = .dict dV))
    (hexc : ∀ sl, vA = .str sl → looksLikeDict sl = true →
      dictMergeCascade sl = Option.none) :
    lookupAssoc (var_dict_update A (pre ++ (k, vB) :: post) s c).1 k = some vB ∧
    (var_dict_update A (pre ++ (k, vB) :: post) s c).2 =
      (var_dict_update A pre s c).2 ++
        overwriteWarning (loopScope A s pre) k vA vB c ::
          (goEntries A post A (loopScope A s pre) c).2 := by
  have hmap : (pre ++ (k, vB) :: post).map Prod.fst
      = pre.map Prod.fst ++ k :: post.map Prod.fst := by simp
  rw [hmap, List.nodup_append] at hnd
  obtain ⟨h1, h2, h3⟩ := hnd
  have hpre : ∀ p ∈ pre, p.1 ≠ k := by
    intro p hp heq
    exact h3 (List.mem_map_of_mem Prod.fst hp) (by simp [heq])
  have hpost : ∀ p ∈ post, p.1 ≠ k := by
    intro p hp heq
    have hk : k ∉ post.map Prod.fst := (List.nodup_cons.mp h2).1
    exact hk (heq ▸ List.mem_map_of_mem Prod.fst hp)
  have H := goEntries_conflict_split A k vA vB c hA hconf hexc pre hpre post hpost A s
  simpa only [var_dict_update] using H

/-- Witness for C2 (amended): merging
`\x7ba: \x7bp: 1\x7d, k: 5\x7d` with `\x7ba: \x7bq: 2\x7d, k: \x7bm: 3\x7d\x7d`
— a scalar-vs-mapping conflict at `k` AFTER a sibling nested-mapping
recursion at `a` — adopts `\x7bm: 3\x7d` at `k` and emits exactly one
warning, whose dotted prefix is the polluted loop scope `a.`. -/
theorem mapping_vs_nonmapping_conflict_witness :
    lookupAssoc (var_dict_update [("a", .dict [("p", .int 1)]), ("k", .int 5)]
        [("a", .dict [("q", .int 2)]), ("k", .dict [("m", .int 3)])] "" "").1 "k"
      = some (.dict [("m", .int 3)]) ∧
    (var_dict_update [("a", .dict [("p", .int 1)]), ("k", .int 5)]
        [("a", .dict [("q", .int 2)]), ("k", .dict [("m", .int 3)])] "" "").2 =
      ["Variable 'a.k' got overwritten from '5' to '\x7b'm': 3\x7d'."] := by
  have H := mapping_vs_nonmapping_conflict
    [("a", .dict [("p", .int 1)]), ("k", .int 5)]
    [("a", .dict [("q", .int 2)])] [] "k" (.int 5) (.dict [("m", .int 3)]) "" ""
    (by simp) (by simp [lookupAssoc])
    (Or.inr ⟨fun d0 h => PyVal.noConfusion h, ⟨[("m", .int 3)], rfl⟩⟩)
    (fun sl h _ => PyVal.noConfusion h)
  simp only [List.cons_append, List.nil_append] at H
  refine ⟨H.1, ?_⟩
  rw [H.2]
  simp [var_dict_update, goEntries, loopScope, lookupAssoc, dictSet, dictContains,
        pyEq, pyEqEntries, pyEqList, asNum, overwriteWarning, pyStr, pyRepr,
        pyReprEntries]
  rfl


/-- C3 shows a code bug: after `var_dict_update` recurses into the
dict-valued key `x`, the loop-carried `val_scope` keeps the `"x."` extension
(src/j2gpp/utils.py, line 238 rebinds the loop local), so the warning for the
SIBLING top-level key `y` is reported at the dotted path `x.y` instead of
`y`.  This theorem evaluates the embedded code at the failing input. -/
theorem merge_sibling_warning_path_polluted :
    (var_dict_update [("x", .dict [("a", .int 1)]), ("y", .int 2)]
        [("x", .dict [("b", .int 5)]), ("y", .int 3)] "" "").2
      = ["Variable 'x.y' got overwritten from '2' to '3'."] := by
  simp [var_dict_update, goEntries, lookupAssoc, dictSet, dictContains, pyEq, asNum,
        pyEqEntries, pyEqList, overwriteWarning, pyStr, pyRepr, looksLikeDict,
        dictMergeCascade]
  rfl

/-- Python `str.split(sep)` on character lists: always at least one group;
a separator at either end yields an empty group there. -/
def splitOnChar (sep : Char) : List Char → List (List Char)
  | [] => [[]]
  | c :: rest =>
    match splitOnChar sep rest with
    | [] => [[c]]
    | g :: gs => if c = sep then [] :: g :: gs else (c :: g) :: gs

/-- Python `s.split(sep)` for a one-character separator. -/
def pySplit (s : String) (sep : Char) : List String :=
  (splitOnChar sep s.toList).map String.mk

theorem splitOnChar_length (sep : Char) (cs : List Char) :
    (splitOnChar sep cs).length = cs.count sep + 1 := by
  induction cs with
  | nil => simp [splitOnChar]
  | cons c rest ih =>
      cases hsp : splitOnChar sep rest with
      | nil => rw [hsp] at ih; simp at ih
      | cons g gs =>
          rw [hsp] at ih
          by_cases hc : c = sep
          · subst hc
            simp [splitOnChar, hsp, List.count_cons] at *
            omega
          · have hcb : ¬ (sep == c) = true := by simp [BEq.symm_false]; exact fun h => hc h.symm
            simp [splitOnChar, hsp, hc, List.count_cons] at *
            omega

/-- Embedding of `J2GPP.define_variable` (src/j2gpp/engine.py, lines
107-120): auto-cast string values, expand dot notation into nested
single-key dicts (innermost first), and merge into the current variables via
`_merge_variables` (line 807), which calls `var_dict_update` with its default
empty scope and context.  Returns the new variables with the merge warnings. -/
def define_variable (vars : PyDict) (name : String) (value : PyVal) :
    PyDict × List String :=
  let value :=
    match value with
    | .str s => auto_cast_str s
    | v => v
  match (pySplit name '.').reverse with
  | [] => (vars, [])
  | k0 :: restKeys =>
      let var_dict := restKeys.foldl (fun d k => [(k, PyVal.dict d)]) [(k0, value)]
      var_dict_update vars var_dict "" ""

/-- C8: `define_variable` on an empty context with name `server.port` and
string value `8080` produces exactly the nested context
`\x7bserver: \x7bport: 8080\x7d\x7d` with `port` the integer 8080 (type
coercion applied), and no warning. -/
theorem define_variable_dot_notation_coercion :
    define_variable [] "server.port" (.str "8080") =
      ([("server", .dict [("port", .int 8080)])], []) := by
  have h8 : literal_eval "8080" = some (.int 8080) := by rfl
  have hsp : pySplit "server.port" '.' = ["server", "port"] := by rfl
  simp [define_variable, auto_cast_str, h8, hsp, var_dict_update, goEntries,
        lookupAssoc, dictSet]

/-- C9: `auto_cast_str` is total and never raises: if the safe literal parse
succeeds it returns the parsed typed value, and on any parse failure it
returns the original string unchanged (the bare `except` in
src/j2gpp/utils.py, lines 213-218, swallows every exception). -/
theorem auto_cast_str_total (s : String) :
    (∀ v, literal_eval s = some v → auto_cast_str s = v) ∧
    (literal_eval s = Option.none → auto_cast_str s = .str s) := by
  refine ⟨fun v hv => ?_, fun hn => ?_⟩
  · simp [auto_cast_str, hv]
  · simp [auto_cast_str, hn]

/-- Witness for C9: both branches exercised at concrete inputs. -/
theorem auto_cast_str_total_witness :
    auto_cast_str "8080" = .int 8080 ∧ auto_cast_str "hello" = .str "hello" :=
  ⟨(auto_cast_str_total "8080").1 (.int 8080) (by rfl),
   (auto_cast_str_total "hello").2 (by rfl)⟩

/-- Python exception kinds that the modelled code can let propagate. -/
inductive PyExc where
  | valueError
  | nameError
  | attributeError
  | other (msg : String)
deriving Repr, DecidableEq

/-- Whether an `Except` result models a normal return. -/
def exceptIsOk {ε α : Type} : Except ε α → Bool
  | .ok _ => true
  | .error _ => false

/-- True when the first character of the line is `#`. -/
def envIsComment (line : String) : Bool :=
  match line.toList with
  | c :: _ => c = '#'
  | [] => false

/-- The `for line_nbr, line in enumerate(var_file)` loop of
`load_env_variables` (src/j2gpp/loaders.py, lines 147-168), threading the
accumulated dict, recorded errors and warnings.  Blank lines and comment
lines are skipped; a line without `=` records an error and continues; the
two-name unpacking of `line.split('=')` succeeds only for exactly two parts
and otherwise raises `ValueError`, which propagates (modelled as
`Except.error`). -/
def loadEnvGo (var_path : String) : List String → Nat → PyDict → List String →
    List String → Except PyExc (PyDict × List String × List String)
  | [], _, d, errs, warns => .ok (d, errs, warns)
  | line :: rest, n, d, errs, warns =>
    if line = "" || line = "\n" then
      loadEnvGo var_path rest (n + 1) d errs warns
    else if envIsComment line then
      loadEnvGo var_path rest (n + 1) d errs warns
    else if ¬ line.toList.contains '=' then
      loadEnvGo var_path rest (n + 1) d
        (errs ++ ["Incorrect ENV file syntax '" ++ line ++ "' line " ++ toString n ++
          " of file '" ++ var_path ++ "'."]) warns
    else
      match pySplit line '=' with
      | [p1, p2] =>
          let var := pyStrip p1
          let val := auto_cast_str (pyStrip p2)
          let warns1 :=
            match lookupAssoc d var with
            | some old => warns ++ ["Variable '" ++ var ++ "' redefined from '" ++
                pyStr old ++ "' to '" ++ pyStr val ++ "' in file '" ++ var_path ++ "'."]
            | Option.none => warns
          loadEnvGo var_path rest (n + 1) (dictSet d var val) errs warns1
      | _ => .error PyExc.valueError

/-- Embedding of `load_env_variables` (src/j2gpp/loaders.py, lines 147-168)
over the list of lines of the file (each as Python file iteration yields it,
newline included).  Returns the variables with the recorded errors and
warnings, or the propagating exception. -/
def load_env_variables (lines : List String) (var_path : String) :
    Except PyExc (PyDict × List String × List String) :=
  loadEnvGo var_path lines 0 [] [] []

theorem loadEnvGo_ok_iff (p : String) :
    ∀ (lines : List String) (n : Nat) (d : PyDict) (errs warns : List String),
      (exceptIsOk (loadEnvGo p lines n d errs warns) = true ↔
        ∀ line ∈ lines, line ≠ "" → line ≠ "\n" → envIsComment line = false →
          line.toList.count '=' ≤ 1) ∧
      (exceptIsOk (loadEnvGo p lines n d errs warns) = false →
        loadEnvGo p lines n d errs warns = .error PyExc.valueError) := by
  intro lines
  induction lines with
  | nil =>
      intro n d errs warns
      simp [loadEnvGo, exceptIsOk]
  | cons line rest ih =>
      intro n d errs warns
      by_cases hb : line = "" || line = "\n"
      · have hb2 : line = "" ∨ line = "\n" := by simpa using hb
        have hstep : loadEnvGo p (line :: rest) n d errs warns =
            loadEnvGo p rest (n + 1) d errs warns := by
          simp [loadEnvGo, hb]
        constructor
        · rw [hstep, (ih (n + 1) d errs warns).1]
          constructor
          · intro h l hl
            rcases List.mem_cons.mp hl with h1 | h1
            · subst h1
              rcases hb2 with h2 | h2 <;> simp [h2]
            · exact h l h1
          · intro h l hl
            exact h l (List.mem_cons_of_mem _ hl)
        · intro h
          rw [hstep] at h ⊢
          exact (ih (n + 1) d errs warns).2 h
      · by_cases hc : envIsComment line = true
        · have hstep : loadEnvGo p (line :: rest) n d errs warns =
              loadEnvGo p rest (n + 1) d errs warns := by
            simp [loadEnvGo, hb, hc]
          constructor
          · rw [hstep, (ih (n + 1) d errs warns).1]
            constructor
            · intro h l hl
              rcases List.mem_cons.mp hl with h1 | h1
              · subst h1
                intro _ _ hcc
                rw [hc] at hcc
                cases hcc
              · exact h l h1
            · intro h l hl
              exact h l (List.mem_cons_of_mem _ hl)
          · intro h
            rw [hstep] at h ⊢
            exact (ih (n + 1) d errs warns).2 h
        · have hc2 : envIsComment line = false := by simpa using hc
          have hb3 : ¬ (line = "" ∨ line = "\n") := by simpa using hb
          have hlen : (pySplit line '=').length = line.toList.count '=' + 1 := by
            unfold pySplit
            rw [List.length_map]
            exact splitOnChar_length '=' line.toList
          by_cases he : line.toList.contains '='
          · have hmem : '=' ∈ line.toList := by simpa using he
            have hmem2 : '=' ∈ line.data := hmem
            have hcnt1 : 0 < line.toList.count '=' := List.count_pos_iff_mem.mpr hmem
            cases hsp : pySplit line '=' with
            | nil =>
                exfalso
                rw [hsp] at hlen
                simp at hlen
            | cons p1 ps =>
                cases ps with
                | nil =>
                    exfalso
                    rw [hsp] at hlen
                    simp only [List.length_cons, List.length_nil] at hlen
                    omega
                | cons p2 ps2 =>
                    cases ps2 with
                    | nil =>
                        have hcnt : line.toList.count '=' = 1 := by
                          rw [hsp] at hlen
                          simp only [List.length_cons, List.length_nil] at hlen
                          omega
                        have hstep : loadEnvGo p (line :: rest) n d errs warns =
                            loadEnvGo p rest (n + 1)
                              (dictSet d (pyStrip p1) (auto_cast_str (pyStrip p2))) errs
                              (match lookupAssoc d (pyStrip p1) with
                               | some old => warns ++ ["Variable '" ++ pyStrip p1 ++
                                   "' redefined from '" ++ pyStr old ++ "' to '" ++
                                   pyStr (auto_cast_str (pyStrip p2)) ++ "' in file '" ++
                                   p ++ "'."]
                               | Option.none => warns) := by
                          simp [loadEnvGo, hb, hc2, hmem2, hsp]
                        constructor
                        · rw [hstep, (ih _ _ _ _).1]
                          constructor
                          · intro h l hl
                            rcases List.mem_cons.mp hl with h1 | h1
                            · subst h1
                              intro _ _ _
                              omega
                            · exact h l h1
                          · intro h l hl
                            exact h l (List.mem_cons_of_mem _ hl)
                        · intro h
                          rw [hstep] at h ⊢
                          exact (ih _ _ _ _).2 h
                    | cons p3 ps3 =>
                        have hcnt : 2 ≤ line.toList.count '=' := by
                          rw [hsp] at hlen
                          simp only [List.length_cons] at hlen
                          omega
                        have hstep : loadEnvGo p (line :: rest) n d errs warns =
                            .error PyExc.valueError := by
                          simp [loadEnvGo, hb, hc2, hmem2, hsp]
                        constructor
                        · rw [hstep]
                          simp only [exceptIsOk, Bool.false_eq_true, false_iff]
                          intro h
                          have := h line (List.mem_cons_self line rest)
                            (fun h1 => hb3 (Or.inl h1)) (fun h1 => hb3 (Or.inr h1)) hc2
                          omega
                        · intro _
                          exact hstep
          · have hnm : '=' ∉ line.toList := by simpa using he
            have hnm2 : '=' ∉ line.data := hnm
            have hstep : loadEnvGo p (line :: rest) n d errs warns =
                loadEnvGo p rest (n + 1) d
                  (errs ++ ["Incorrect ENV file syntax '" ++ line ++ "' line " ++
                    toString n ++ " of file '" ++ p ++ "'."]) warns := by
              simp [loadEnvGo, hb, hc2, hnm2]
            have hcnt : line.toList.count '=' = 0 := by
              simpa [List.count_eq_zero] using hnm
            constructor
            · rw [hstep, (ih _ _ _ _).1]
              constructor
              · intro h l hl
                rcases List.mem_cons.mp hl with h1 | h1
                · subst h1
                  intro _ _ _
                  omega
                · exact h l h1
              · intro h l hl
                exact h l (List.mem_cons_of_mem _ hl)
            · intro h
              rw [hstep] at h ⊢
              exact (ih _ _ _ _).2 h

/-- Counterexample to C10 as stated: a file whose only line `foo` contains
zero `=` characters makes `load_env_variables` return normally (the missing
`=` is recorded as a classified error and the loop continues,
src/j2gpp/loaders.py lines 157-159), so "returns normally only when every
processed line contains exactly one `=`" is false. -/
theorem load_env_zero_equals_cex :
    load_env_variables ["foo\n"] "f" =
      .ok ([], ["Incorrect ENV file syntax 'foo\n' line 0 of file 'f'."], []) ∧
    ¬ ("foo\n".toList.count '=' = 1) := by
  constructor
  · rfl
  · decide

/-- C10 (amended): `load_env_variables` returns normally if and only if
every non-blank, non-comment line contains AT MOST one `=`; whenever it does
not return normally, the propagating exception is the `ValueError` raised by
the two-name unpacking of `line.split('=')`, as on the concrete line
`key=value1=value2`. -/
theorem load_env_variables_ok_iff :
    (∀ (lines : List String) (p : String),
      (exceptIsOk (load_env_variables lines p) = true ↔
        ∀ line ∈ lines, line ≠ "" → line ≠ "\n" → envIsComment line = false →
          line.toList.count '=' ≤ 1) ∧
      (exceptIsOk (load_env_variables lines p) = false →
        load_env_variables lines p = .error PyExc.valueError)) ∧
    load_env_variables ["key=value1=value2\n"] "vars.env" = .error PyExc.valueError := by
  constructor
  · intro lines p
    exact loadEnvGo_ok_iff p lines 0 [] [] []
  · rfl

/-- Witness for C10 (amended): a well-formed file loads normally. -/
theorem load_env_variables_ok_iff_witness :
    exceptIsOk (load_env_variables ["# comment\n", "a=1\n"] "f") = true := by
  refine (load_env_variables_ok_iff.1 ["# comment\n", "a=1\n"] "f").1.mpr ?_
  decide

/-- Lookup in a string-valued association list (the modelled filesystem's
file contents). -/
def strLookup (l : List (String × String)) (k : String) : Option String :=
  match l with
  | [] => Option.none
  | (k1, v) :: rest => if k1 = k then some v else strLookup rest k

/-- Update/insert in a string-valued association list. -/
def strSet (l : List (String × String)) (k : String) (v : String) :
    List (String × String) :=
  match l with
  | [] => [(k, v)]
  | (k1, w) :: rest => if k1 = k then (k, v) :: rest else (k1, w) :: strSet rest k v

/-- `s.endswith(suffix)`. -/
def strEndsWith (s suffix : String) : Bool :=
  suffix.toList.isSuffixOf s.toList

/-- Python `s.rstrip()`: drop trailing whitespace. -/
def strRstrip (s : String) : String :=
  String.mk (s.toList.reverse.dropWhile isWsChar).reverse

/-- `os.path.dirname`: everything before the last `/` (empty when there is
no slash; the root special cases are outside the modelled fragment). -/
def dirname (path : String) : String :=
  match (path.toList.reverse.dropWhile (fun c => c ≠ '/')) with
  | [] => ""
  | _ :: restRev => String.mk restRev.reverse

/-- The process-wide mutable state touched by the per-file render pipeline:
the working directory, the existing directories and the file contents of the
modelled filesystem, the render-scoped `write_source_toggle`
(src/j2gpp/filters.py, line 624), and the module-level warning and error
accumulators of src/j2gpp/utils.py. -/
structure World where
  cwd      : String
  dirs     : List String
  files    : List (String × String)
  toggle   : Bool
  warnings : List String
  errors   : List String
deriving Repr, DecidableEq

/-- Embedding of `change_working_directory` (src/j2gpp/utils.py, lines
331-340): `os.chdir` succeeds exactly when the directory exists in the
modelled filesystem; on failure an error is recorded and the working
directory is left unchanged (the EACCES/other message variants are
collapsed into the missing-directory message). -/
def change_working_directory (dir_path : String) (w : World) : World :=
  if dir_path ∈ w.dirs then
    { w with cwd := dir_path }
  else
    { w with errors := w.errors ++ ["Cannot change working directory to '" ++
        dir_path ++ "' : directory doesn't exist."] }

/-- `errno` values distinguished by the pipeline's error classification. -/
inductive OsErrno where
  | enoent
  | eacces
  | eisdir
  | otherErr
deriving Repr, DecidableEq

/-- Outcome of one render call of the external Jinja2 collaborator, as
classified by the handlers of `process_single_file` (src/j2gpp/core.py,
lines 167-211). -/
inductive RenderOutcome where
  | ok (text : String)
  | undef (msg : String)
  | synError (msg : String)
  | notFound (name : String)
  | osError (e : OsErrno)
  | exc (msg : String)
deriving Repr, DecidableEq

/-- The `options` read by `process_single_file` via `options.get(...)`
(absent keys default to false). -/
structure RenderOptions where
  copy_non_template : Bool
  debug_vars        : Bool
  trim_whitespace   : Bool
  warn_overwrite    : Bool
  no_overwrite      : Bool
deriving Repr, DecidableEq

/-- External collaborators of the pipeline, modelled as oracles: the Jinja2
renderer (which may run arbitrary template code and therefore sees and may
update the whole world), `os.makedirs` (a function of the directory set
only), `shutil.copyfile`, `jinja2_render_traceback` (which may itself raise,
making the except handlers of core.py lines 173-176 blow up), and the
permission outcome of `open(path, 'w')` (`Option.none` means the write
succeeds; the embedding then updates the file contents). -/
structure Oracle where
  render    : String → PyDict → World → World × RenderOutcome
  mkdirs    : String → List String → Option (List String)
  copyfile  : String → String → World → World × Option String
  traceback : String → Bool → World → World × Except PyExc String
  fwriteErr : String → List String → List (String × String) → Option OsErrno

/-- Embedding of the `FileRenderResult` dataclass (src/j2gpp/results.py):
the per-file render result.  A skip is a success with the skip reason in
`error_message`. -/
structure FileRenderResult where
  source_path   : String
  output_path   : String
  success       : Bool
  error_message : Option String
  is_template   : Bool
  was_copied    : Bool
deriving Repr, DecidableEq

/-- The write stage of `process_single_file` (src/j2gpp/core.py, lines
228-240): classified write errors, or the file contents updated. -/
def writeStep (o : Oracle) (source_path output_path src_res : String)
    (is_template : Bool) (w : World) : World × Except PyExc FileRenderResult :=
  match o.fwriteErr output_path w.dirs w.files with
  | some .eisdir =>
      (w, .ok ⟨source_path, output_path, false,
        some ("Cannot write '" ++ output_path ++ "' : path is a directory."),
        is_template, false⟩)
  | some .eacces =>
      (w, .ok ⟨source_path, output_path, false,
        some ("Cannot write '" ++ output_path ++ "' : missing write permission."),
        is_template, false⟩)
  | some _ =>
      (w, .ok ⟨source_path, output_path, false,
        some ("Cannot write '" ++ output_path ++ "'."), is_template, false⟩)
  | Option.none =>
      ({ w with files := strSet w.files output_path src_res },
        .ok ⟨source_path, output_path, true, Option.none, is_template, false⟩)

/-- The per-file context injection of `process_single_file`
(src/j2gpp/core.py, lines 156-160): the template variables are the global
variables plus `__source_path__` and `__output_path__`. -/
def templateVars (vars : PyDict) (source_path output_path : String) : PyDict :=
  dictSet (dictSet vars "__source_path__" (.str source_path))
    "__output_path__" (.str output_path)

/-- The content written as the primary output: optional debug preamble
(core.py lines 163-164), the rendered text (line 170), and the optional
trailing-whitespace trim (lines 214-215). -/
def renderedContent (opts : RenderOptions) (template_vars : PyDict)
    (rendered : String) : String :=
  let src_res0 := if opts.debug_vars then
      pyStr (.dict template_vars) ++ String.mk (List.replicate 10 '\n')
    else ""
  if opts.trim_whitespace then strRstrip (src_res0 ++ rendered)
  else src_res0 ++ rendered

/-- The `try` body of `process_single_file` after the working-directory
switch (src/j2gpp/core.py, lines 125-242): output-directory creation,
non-template copy/skip, toggle reset, per-file context injection, debug
preamble, classified rendering, whitespace trim, export-filter skip,
overwrite policy, and the final write.  An `Except.error` models a Python exception escaping
the body (here: the traceback helper's own except handler failing, see
core.py lines 173-176 — the handler references attributes and locals that do
not exist when `jinja2_render_traceback` raises). -/
def processSingleFileRest (o : Oracle) (source_path output_path : String)
    (vars : PyDict) (opts : RenderOptions)
    (w : World) : World × Except PyExc FileRenderResult :=
  let is_template := strEndsWith source_path ".j2"
  let output_dir := dirname output_path
  match o.mkdirs output_dir w.dirs with
  | Option.none =>
      (w, .ok ⟨source_path, output_path, false,
        some ("Cannot create directory '" ++ output_dir ++ "'."), is_template, false⟩)
  | some dirs2 =>
    let w := { w with dirs := dirs2 }
    if is_template = false then
      if opts.copy_non_template then
        match o.copyfile source_path output_path w with
        | (w2, Option.none) =>
            (w2, .ok ⟨source_path, output_path, true, Option.none, false, true⟩)
        | (w2, some msg) =>
            (w2, .ok ⟨source_path, output_path, false,
              some ("Cannot copy '" ++ source_path ++ "' to '" ++ output_path ++
                "': " ++ msg), false, false⟩)
      else
        (w, .ok ⟨source_path, output_path, true, some "Skipped non-template",
          false, false⟩)
    else
      let w := { w with toggle := true }
      let template_vars := templateVars vars source_path output_path
      match strLookup w.files source_path with
      | Option.none =>
          (w, .ok ⟨source_path, output_path, false,
            some ("Cannot read '" ++ source_path ++ "' : file doesn't exist."),
            true, false⟩)
      | some text =>
        match o.render text template_vars w with
        | (w2, .ok rendered) =>
            let src_res := renderedContent opts template_vars rendered
            if w2.toggle = false then
              (w2, .ok ⟨source_path, output_path, true,
                some "Skipped by export filter", true, false⟩)
            else
              let existsOut := (strLookup w2.files output_path).isSome ||
                w2.dirs.contains output_path
              if existsOut then
                if opts.warn_overwrite then
                  writeStep o source_path output_path src_res true
                    { w2 with warnings := w2.warnings ++ ["Output file '" ++
                      output_path ++ "' already exists and will be overwritten."] }
                else if opts.no_overwrite then
                  (w2, .ok ⟨source_path, output_path, true,
                    some "Skipped to avoid overwrite", true, false⟩)
                else
                  writeStep o source_path output_path src_res true w2
              else
                writeStep o source_path output_path src_res true w2
        | (w2, .undef msg) =>
            (match o.traceback source_path false w2 with
             | (w3, .ok tb) =>
                 (w3, .ok ⟨source_path, output_path, false,
                   some ("Undefined object encountered while rendering '" ++
                     source_path ++ "' :\n" ++ tb ++ "\n      " ++ msg), true, false⟩)
             | (w3, .error e) => (w3, .error e))
        | (w2, .synError msg) =>
            (match o.traceback source_path false w2 with
             | (w3, .ok tb) =>
                 (w3, .ok ⟨source_path, output_path, false,
                   some ("Syntax error encountered while rendering '" ++
                     source_path ++ "' :\n" ++ tb ++ "\n      " ++ msg), true, false⟩)
             | (w3, .error e) => (w3, .error e))
        | (w2, .notFound name) =>
            (match o.traceback source_path false w2 with
             | (w3, .ok tb) =>
                 (w3, .ok ⟨source_path, output_path, false,
                   some ("Included template '" ++ name ++ "' not found :\n" ++ tb),
                   true, false⟩)
             | (w3, .error e) => (w3, .error e))
        | (w2, .osError e) =>
            (w2, .ok ⟨source_path, output_path, false,
              some (match e with
                | .enoent => "Cannot read '" ++ source_path ++ "' : file doesn't exist."
                | .eacces => "Cannot read '" ++ source_path ++ "' : missing read permission."
                | _ => "Cannot read '" ++ source_path ++ "'."), true, false⟩)
        | (w2, .exc msg) =>
            (match o.traceback source_path true w2 with
             | (w3, .ok tb) =>
                 (w3, .ok ⟨source_path, output_path, false,
                   some ("Exception occurred while rendering '" ++ source_path ++
                     "' :\n" ++ tb ++ "\n      " ++ msg), true, false⟩)
             | (w3, .error e) => (w3, .error e))

/-- The `try` body of `process_single_file`: the optional working-directory
switch of core.py lines 122-123 followed by the rest of the pipeline. -/
def processSingleFileBody (o : Oracle) (source_path output_path : String)
    (vars : PyDict) (opts : RenderOptions) (working_dir : Option String)
    (w0 : World) : World × Except PyExc FileRenderResult :=
  processSingleFileRest o source_path output_path vars opts
    (match working_dir with
     | some wd => change_working_directory wd w0
     | Option.none => w0)

/-- Embedding of `process_single_file` (src/j2gpp/core.py, lines 106-246):
back up the working directory, run the body, and — in a `finally`, so on
normal returns and on propagating exceptions alike — restore the original
working directory. -/
def process_single_file (o : Oracle) (source_path output_path : String)
    (vars : PyDict) (opts : RenderOptions) (working_dir : Option String)
    (w : World) : World × Except PyExc FileRenderResult :=
  let original_wd := w.cwd
  let br := processSingleFileBody o source_path output_path vars opts working_dir w
  (change_working_directory original_wd br.1, br.2)

/-- Oracle property bundle for C5: no external collaborator ever removes an
existing directory (single-threaded run; directories are only created). -/
def OracleDirsMono (o : Oracle) : Prop :=
  (∀ text tv w, w.dirs ⊆ (o.render text tv w).1.dirs) ∧
  (∀ p dirsIn dirs2, o.mkdirs p dirsIn = some dirs2 → dirsIn ⊆ dirs2) ∧
  (∀ src b w, w.dirs ⊆ (o.traceback src b w).1.dirs) ∧
  (∀ a b w, w.dirs ⊆ (o.copyfile a b w).1.dirs)

theorem change_working_directory_dirs (d : String) (wx : World) :
    (change_working_directory d wx).dirs = wx.dirs := by
  unfold change_working_directory
  split <;> rfl

theorem writeStep_dirs (o : Oracle) (a b c : String) (t : Bool) (wx : World) :
    ((writeStep o a b c t wx).1).dirs = wx.dirs := by
  unfold writeStep
  split <;> rfl

theorem processSingleFileRest_dirs_mono (o : Oracle) (hm : OracleDirsMono o)
    (source_path output_path : String) (vars : PyDict) (opts : RenderOptions)
    (w : World) :
    w.dirs ⊆
      ((processSingleFileRest o source_path output_path vars opts w).1).dirs := by
  obtain ⟨hrender, hmk, htb, hcp⟩ := hm
  unfold processSingleFileRest
  dsimp only
  split
  · exact fun a ha => ha
  · rename_i dirs2 heqmk
    have h1 : w.dirs ⊆ dirs2 := hmk _ _ _ heqmk
    split
    · split
      · split
        · rename_i w2 heqcp
          refine h1.trans ?_
          have := hcp source_path output_path { w with dirs := dirs2 }
          rw [heqcp] at this
          exact this
        · rename_i w2 msg heqcp
          refine h1.trans ?_
          have := hcp source_path output_path { w with dirs := dirs2 }
          rw [heqcp] at this
          exact this
      · exact h1
    · split
      · exact h1
      · rename_i text heqtext
        have hr := hrender text (templateVars vars source_path output_path)
          { w with dirs := dirs2, toggle := true }
        split
        · rename_i w2 rendered heqr
          rw [heqr] at hr
          have h2 : w.dirs ⊆ w2.dirs := h1.trans hr
          split
          · exact h2
          · split
            · split
              · rw [writeStep_dirs]
                exact h2
              · split
                · exact h2
                · rw [writeStep_dirs]
                  exact h2
            · rw [writeStep_dirs]
              exact h2
        · rename_i w2 msg heqr
          rw [heqr] at hr
          have h2 : w.dirs ⊆ w2.dirs := h1.trans hr
          split
          · rename_i w3 tb heqtb
            have h3 := htb source_path false w2
            rw [heqtb] at h3
            exact h2.trans h3
          · rename_i w3 e heqtb
            have h3 := htb source_path false w2
            rw [heqtb] at h3
            exact h2.trans h3
        · rename_i w2 msg heqr
          rw [heqr] at hr
          have h2 : w.dirs ⊆ w2.dirs := h1.trans hr
          split
          · rename_i w3 tb heqtb
            have h3 := htb source_path false w2
            rw [heqtb] at h3
            exact h2.trans h3
          · rename_i w3 e heqtb
            have h3 := htb source_path false w2
            rw [heqtb] at h3
            exact h2.trans h3
        · rename_i w2 name heqr
          rw [heqr] at hr
          have h2 : w.dirs ⊆ w2.dirs := h1.trans hr
          split
          · rename_i w3 tb heqtb
            have h3 := htb source_path false w2
            rw [heqtb] at h3
            exact h2.trans h3
          · rename_i w3 e heqtb
            have h3 := htb source_path false w2
            rw [heqtb] at h3
            exact h2.trans h3
        · rename_i w2 e heqr
          rw [heqr] at hr
          exact h1.trans hr
        · rename_i w2 msg heqr
          rw [heqr] at hr
          have h2 : w.dirs ⊆ w2.dirs := h1.trans hr
          split
          · rename_i w3 tb heqtb
            have h3 := htb source_path true w2
            rw [heqtb] at h3
            exact h2.trans h3
          · rename_i w3 e heqtb
            have h3 := htb source_path true w2
            rw [heqtb] at h3
            exact h2.trans h3

/-- C5: `process_single_file` restores the process working directory on
every exit path — successful render, skip results, classified per-file error
returns, and propagating exceptions alike — because the restoration runs in
the `finally` of src/j2gpp/core.py lines 244-246.  Hypotheses: the external
collaborators never remove an existing directory (single-threaded run), and
the original working directory exists. -/
theorem process_single_file_restores_cwd (o : Oracle)
    (source_path output_path : String) (vars : PyDict) (opts : RenderOptions)
    (working_dir : Option String) (w : World)
    (hm : OracleDirsMono o) (hcwd : w.cwd ∈ w.dirs) :
    ((process_single_file o source_path output_path vars opts working_dir w).1).cwd
      = w.cwd := by
  have hmono : w.dirs ⊆
      ((processSingleFileBody o source_path output_path vars opts working_dir w).1).dirs := by
    unfold processSingleFileBody
    cases working_dir with
    | none => exact processSingleFileRest_dirs_mono o hm source_path output_path vars opts w
    | some wd =>
        have h3 := processSingleFileRest_dirs_mono o hm source_path output_path vars opts
          (change_working_directory wd w)
        rw [change_working_directory_dirs] at h3
        exact h3
  have hin : w.cwd ∈
      ((processSingleFileBody o source_path output_path vars opts working_dir w).1).dirs :=
    hmono hcwd
  unfold process_single_file
  dsimp only
  unfold change_working_directory
  rw [if_pos hin]

/-- A concrete, well-behaved oracle for witnesses: rendering returns fixed
text and leaves the world unchanged, directory creation and file writes
succeed, copying succeeds, tracebacks render to the empty string. -/
def trivialOracle : Oracle where
  render := fun _ _ w => (w, .ok "rendered")
  mkdirs := fun _ dirs => some dirs
  copyfile := fun _ _ w => (w, Option.none)
  traceback := fun _ _ w => (w, .ok "")
  fwriteErr := fun _ _ _ => Option.none

theorem trivialOracle_dirs_mono : OracleDirsMono trivialOracle :=
  ⟨fun _ _ _ => fun a ha => ha,
   fun _ dIn d2 h => by
     injection h with h1
     exact h1 ▸ (fun a ha => ha),
   fun _ _ _ => fun a ha => ha,
   fun _ _ _ => fun a ha => ha⟩

/-- Witness for C5: a concrete run through the pipeline ends with the
original working directory. -/
theorem process_single_file_restores_cwd_witness :
    ((process_single_file trivialOracle "t.j2" "/w/out" []
        ⟨false, false, false, false, false⟩ Option.none
        ⟨"/w", ["/w"], [("t.j2", "hello")], true, [], []⟩).1).cwd = "/w" :=
  process_single_file_restores_cwd trivialOracle "t.j2" "/w/out" []
    ⟨false, false, false, false, false⟩ Option.none
    ⟨"/w", ["/w"], [("t.j2", "hello")], true, [], []⟩
    trivialOracle_dirs_mono (by simp)

/-- Embedding of the `write` filter (src/j2gpp/filters.py, lines 627-663):
AND the render-scoped `write_source_toggle` with this invocation's
`write_source` flag, create the target's directories, write the block
content, and return either the content (`preserve`) or the empty string as
the in-template replacement.  Path expansion (`expandvars`/`expanduser`/
`abspath`) is modelled as the identity.  The `append` filter (lines 667-705)
updates the toggle identically. -/
def write_filter (o : Oracle) (content path : String) (preserve write_source : Bool)
    (w : World) : World × String :=
  let w := { w with toggle := w.toggle && write_source }
  let w := match o.mkdirs (dirname path) w.dirs with
           | some dirs2 => { w with dirs := dirs2 }
           | Option.none => { w with errors := w.errors ++
               ["Cannot create directory '" ++ dirname path ++ "' to export block."] }
  let w := match o.fwriteErr path w.dirs w.files with
           | Option.none => { w with files := strSet w.files path content }
           | some .eisdir => { w with errors := w.errors ++
               ["Cannot write '" ++ path ++ "' : path is a directory."] }
           | some .eacces => { w with errors := w.errors ++
               ["Cannot write '" ++ path ++ "' : missing write permission."] }
           | some _ => { w with errors := w.errors ++
               ["Cannot write '" ++ path ++ "'."] }
  (w, if preserve then content else "")

/-- One in-template invocation of the write/append construct. -/
structure WriteCall where
  content      : String
  path         : String
  preserve     : Bool
  write_source : Bool

/-- A sequence of write/append invocations as they run, in order, during one
template render. -/
def runWrites (o : Oracle) : List WriteCall → World → World
  | [], w => w
  | ca :: rest, w =>
      runWrites o rest (write_filter o ca.content ca.path ca.preserve ca.write_source w).1

theorem write_filter_toggle (o : Oracle) (c p : String) (pr ws : Bool) (w : World) :
    ((write_filter o c p pr ws w).1).toggle = (w.toggle && ws) := by
  unfold write_filter
  dsimp only
  split <;> split <;> rfl

theorem change_working_directory_files (d : String) (wx : World) :
    (change_working_directory d wx).files = wx.files := by
  unfold change_working_directory
  split <;> rfl

theorem change_working_directory_toggle_comm (d : String) (wx : World) (b : Bool) :
    change_working_directory d { wx with toggle := b } =
      { change_working_directory d wx with toggle := b } := by
  by_cases h : d ∈ wx.dirs <;> simp [change_working_directory, h]

theorem strLookup_strSet_self (l : List (String × String)) (k v : String) :
    strLookup (strSet l k v) k = some v := by
  induction l with
  | nil => simp [strSet, strLookup]
  | cons e rest ih =>
      obtain ⟨k1, w⟩ := e
      by_cases h : k1 = k <;> simp [strSet, strLookup, h, ih]

theorem foldl_and_eq_all (flags : List Bool) (acc : Bool) :
    List.foldl (fun t f => t && f) acc flags = (acc && flags.all id) := by
  induction flags generalizing acc with
  | nil => simp
  | cons f rest ih => simp [List.foldl_cons, ih, Bool.and_assoc]

theorem runWrites_toggle (o : Oracle) (calls : List WriteCall) : ∀ (w : World),
    (runWrites o calls w).toggle =
      List.foldl (fun t f => t && f) w.toggle (calls.map (fun ca => ca.write_source)) := by
  induction calls with
  | nil => intro w; rfl
  | cons ca rest ih =>
      intro w
      rw [show runWrites o (ca :: rest) w =
        runWrites o rest (write_filter o ca.content ca.path ca.preserve ca.write_source w).1
        from rfl]
      rw [ih, write_filter_toggle]
      simp

theorem processSingleFileRest_toggle_blind (o : Oracle) (source_path output_path : String)
    (vars : PyDict) (opts : RenderOptions) (W : World) (dirs2 : List String) (b : Bool)
    (htpl : strEndsWith source_path ".j2" = true)
    (hmk : o.mkdirs (dirname output_path) W.dirs = some dirs2) :
    processSingleFileRest o source_path output_path vars opts { W with toggle := b } =
      processSingleFileRest o source_path output_path vars opts W := by
  unfold processSingleFileRest
  dsimp only
  rw [hmk]
  dsimp only
  rw [htpl]
  simp only [Bool.true_eq_false, if_false]

/-- C6: the write-source toggle protocol.  (i) A sequence of write/append
filter invocations AND-reduces the render-scoped toggle with the invoked
`write_source` flags, sticky-false.  (ii) For a template render that
succeeds, whose invocations of the constructs passed the flags `flags`
(starting from the toggle reset to true at src/j2gpp/core.py line 153), and
for which the write stage itself would succeed and the no-overwrite skip
does not apply: the primary output file is written, with the rendered
content, if and only if every flag was true — otherwise the pipeline returns
"Skipped by export filter" and writes nothing.  (iii) On the template path
the whole run is independent of the toggle value inherited from a previous
file's render: the reset makes suppression in one file never suppress a
later file. -/
theorem write_toggle_gates_primary_output :
    (∀ (o2 : Oracle) (calls : List WriteCall) (w2 : World),
      (runWrites o2 calls w2).toggle =
        List.foldl (fun t f => t && f) w2.toggle (calls.map (fun ca => ca.write_source))) ∧
    (∀ (o : Oracle) (source_path output_path : String) (vars : PyDict)
        (opts : RenderOptions) (working_dir : Option String) (w : World)
        (dirs2 : List String) (text rendered : String) (w3 : World) (flags : List Bool),
      strEndsWith source_path ".j2" = true →
      o.mkdirs (dirname output_path)
        (match working_dir with
         | some wd => change_working_directory wd w
         | Option.none => w).dirs = some dirs2 →
      strLookup w.files source_path = some text →
      o.render text (templateVars vars source_path output_path)
        { (match working_dir with
           | some wd => change_working_directory wd w
           | Option.none => w) with dirs := dirs2, toggle := true } = (w3, .ok rendered) →
      w3.toggle = List.foldl (fun t f => t && f) true flags →
      opts.no_overwrite = false →
      o.fwriteErr output_path w3.dirs w3.files = Option.none →
      ((flags.all id = true →
        (process_single_file o source_path output_path vars opts working_dir w).2 =
          .ok ⟨source_path, output_path, true, Option.none, true, false⟩ ∧
        strLookup
          ((process_single_file o source_path output_path vars opts working_dir w).1).files
          output_path =
          some (renderedContent opts (templateVars vars source_path output_path) rendered)) ∧
      (flags.all id = false →
        (process_single_file o source_path output_path vars opts working_dir w).2 =
          .ok ⟨source_path, output_path, true, some "Skipped by export filter", true, false⟩ ∧
        ((process_single_file o source_path output_path vars opts working_dir w).1).files =
          w3.files))) ∧
    (∀ (o : Oracle) (source_path output_path : String) (vars : PyDict)
        (opts : RenderOptions) (working_dir : Option String) (w : World)
        (dirs2 : List String) (b : Bool),
      strEndsWith source_path ".j2" = true →
      o.mkdirs (dirname output_path)
        (match working_dir with
         | some wd => change_working_directory wd w
         | Option.none => w).dirs = some dirs2 →
      process_single_file o source_path output_path vars opts working_dir
          { w with toggle := b } =
        process_single_file o source_path output_path vars opts working_dir w) := by
  refine ⟨runWrites_toggle, ?_, ?_⟩
  · intro o source_path output_path vars opts working_dir w dirs2 text rendered w3 flags
      htpl hmk hsrc hrender htog hnoskip hwrite
    have hfiles1 : (match working_dir with
        | some wd => change_working_directory wd w
        | Option.none => w).files = w.files := by
      cases working_dir with
      | none => rfl
      | some wd => exact change_working_directory_files wd w
    have htogAll : w3.toggle = flags.all id := by
      rw [htog, foldl_and_eq_all]
      simp
    unfold process_single_file processSingleFileBody processSingleFileRest
    dsimp only
    rw [hmk]
    dsimp only
    rw [htpl]
    simp only [Bool.true_eq_false, if_false]
    rw [hfiles1, hsrc]
    dsimp only
    dsimp only at hrender
    rw [hfiles1] at hrender
    rw [hrender]
    dsimp only
    rw [htogAll]
    constructor
    · intro hall
      rw [hall]
      simp only [Bool.true_eq_false, if_false]
      by_cases hex : ((strLookup w3.files output_path).isSome ||
          w3.dirs.contains output_path) = true
      · rw [if_pos hex]
        by_cases hwo : opts.warn_overwrite = true
        · rw [if_pos hwo]
          unfold writeStep
          dsimp only
          rw [hwrite]
          exact ⟨rfl, by
            rw [change_working_directory_files]
            exact strLookup_strSet_self _ _ _⟩
        · rw [if_neg hwo, if_neg (by simp [hnoskip])]
          unfold writeStep
          rw [hwrite]
          exact ⟨rfl, by
            rw [change_working_directory_files]
            exact strLookup_strSet_self _ _ _⟩
      · rw [if_neg hex]
        unfold writeStep
        rw [hwrite]
        exact ⟨rfl, by
          rw [change_working_directory_files]
          exact strLookup_strSet_self _ _ _⟩
    · intro hall
      rw [hall]
      rw [if_pos rfl]
      exact ⟨rfl, by rw [change_working_directory_files]⟩
  · intro o source_path output_path vars opts working_dir w dirs2 b htpl hmk
    have hchdir : (match working_dir with
        | some wd => change_working_directory wd { w with toggle := b }
        | Option.none => { w with toggle := b }) =
        { (match working_dir with
           | some wd => change_working_directory wd w
           | Option.none => w) with toggle := b } := by
      cases working_dir with
      | none => rfl
      | some wd => exact change_working_directory_toggle_comm wd w b
    unfold process_single_file processSingleFileBody
    dsimp only
    rw [hchdir]
    rw [processSingleFileRest_toggle_blind o source_path output_path vars opts
      (match working_dir with
       | some wd => change_working_directory wd w
       | Option.none => w) dirs2 b htpl hmk]

/-- A concrete oracle whose render performs one write-construct invocation
with `write_source=False` (the toggle effect `t && false`). -/
def suppressOracle : Oracle where
  render := fun _ _ w => ({ w with toggle := w.toggle && false }, .ok "rendered")
  mkdirs := fun _ dirs => some dirs
  copyfile := fun _ _ w => (w, Option.none)
  traceback := fun _ _ w => (w, .ok "")
  fwriteErr := fun _ _ _ => Option.none

/-- Witness for C6: a render whose single invocation passes
`write_source=False` makes the pipeline skip the primary output. -/
theorem write_toggle_gates_primary_output_witness :
    (process_single_file suppressOracle "t.j2" "/w/out" []
        ⟨false, false, false, false, false⟩ Option.none
        ⟨"/w", ["/w"], [("t.j2", "x")], true, [], []⟩).2 =
      .ok ⟨"t.j2", "/w/out", true, some "Skipped by export filter", true, false⟩ :=
  ((write_toggle_gates_primary_output.2.1 suppressOracle "t.j2" "/w/out" []
      ⟨false, false, false, false, false⟩ Option.none
      ⟨"/w", ["/w"], [("t.j2", "x")], true, [], []⟩ ["/w"] "x" "rendered"
      ⟨"/w", ["/w"], [("t.j2", "x")], false, [], []⟩ [false]
      (by rfl) (by rfl) (by rfl) (by rfl) (by rfl) (by rfl) (by rfl)).2 (by rfl)).1

/-- Counterexample to C7 as stated: with BOTH `no_overwrite` and
`warn_overwrite` set and an existing destination, `process_single_file`
overwrites instead of skipping — the `warn_overwrite` branch is checked
first (src/j2gpp/core.py, lines 223-226), even though the CLI claims
"--warn-overwrite is ignored" in that combination (src/j2gpp/cli.py, lines
203-204). -/
theorem no_overwrite_trumped_by_warn_overwrite_cex :
    (process_single_file trivialOracle "t.j2" "/w/out" []
        ⟨false, false, false, true, true⟩ Option.none
        ⟨"/w", ["/w"], [("t.j2", "x"), ("/w/out", "OLD")], true, [], []⟩).2 =
      .ok ⟨"t.j2", "/w/out", true, Option.none, true, false⟩ ∧
    strLookup ((process_single_file trivialOracle "t.j2" "/w/out" []
        ⟨false, false, false, true, true⟩ Option.none
        ⟨"/w", ["/w"], [("t.j2", "x"), ("/w/out", "OLD")], true, [], []⟩).1).files
      "/w/out" = some "rendered" ∧
    some "rendered" ≠ some "OLD" :=
  ⟨by rfl, by rfl, by simp⟩

/-- C7 (amended): when the no-overwrite policy is active, the warn-overwrite
option is not also set, and the render pipeline reaches the write stage
(template recognised, directories created, source read, render succeeded,
toggle still true) with the destination already existing, the result is a
successful "Skipped to avoid overwrite" and the destination's content is
byte-for-byte unchanged.  `hpres` states that the render step itself did not
touch the destination file (a template could, via the write construct). -/
theorem no_overwrite_skips_existing_destination
    (o : Oracle) (source_path output_path : String) (vars : PyDict)
    (opts : RenderOptions) (working_dir : Option String) (w : World)
    (dirs2 : List String) (text rendered : String) (w3 : World)
    (htpl : strEndsWith source_path ".j2" = true)
    (hmk : o.mkdirs (dirname output_path)
      (match working_dir with
       | some wd => change_working_directory wd w
       | Option.none => w).dirs = some dirs2)
    (hsrc : strLookup w.files source_path = some text)
    (hrender : o.render text (templateVars vars source_path output_path)
      { (match working_dir with
         | some wd => change_working_directory wd w
         | Option.none => w) with dirs := dirs2, toggle := true } = (w3, .ok rendered))
    (htog : w3.toggle = true)
    (hnov : opts.no_overwrite = true)
    (hwov : opts.warn_overwrite = false)
    (hpres : strLookup w3.files output_path = strLookup w.files output_path)
    (hex : (strLookup w.files output_path).isSome = true) :
    (process_single_file o source_path output_path vars opts working_dir w).2 =
      .ok ⟨source_path, output_path, true, some "Skipped to avoid overwrite", true, false⟩ ∧
    strLookup
      ((process_single_file o source_path output_path vars opts working_dir w).1).files
      output_path = strLookup w.files output_path := by
  have hfiles1 : (match working_dir with
      | some wd => change_working_directory wd w
      | Option.none => w).files = w.files := by
    cases working_dir with
    | none => rfl
    | some wd => exact change_working_directory_files wd w
  unfold process_single_file processSingleFileBody processSingleFileRest
  dsimp only
  rw [hmk]
  dsimp only
  rw [htpl]
  simp only [Bool.true_eq_false, if_false]
  rw [hfiles1, hsrc]
  dsimp only
  dsimp only at hrender
  rw [hfiles1] at hrender
  rw [hrender]
  dsimp only
  rw [htog]
  simp only [Bool.true_eq_false, if_false]
  have hex3 : ((strLookup w3.files output_path).isSome ||
      w3.dirs.contains output_path) = true := by
    rw [hpres]
    simp [hex]
  rw [if_pos hex3, if_neg (by simp [hwov]), if_pos hnov]
  exact ⟨rfl, by rw [change_working_directory_files]; exact hpres⟩

/-- Witness for C7 (amended): with only no-overwrite set and the destination
present, the concrete run skips and preserves the old content. -/
theorem no_overwrite_skips_existing_destination_witness :
    (process_single_file trivialOracle "t.j2" "/w/out" []
        ⟨false, false, false, false, true⟩ Option.none
        ⟨"/w", ["/w"], [("t.j2", "x"), ("/w/out", "OLD")], true, [], []⟩).2 =
      .ok ⟨"t.j2", "/w/out", true, some "Skipped to avoid overwrite", true, false⟩ ∧
    strLookup ((process_single_file trivialOracle "t.j2" "/w/out" []
        ⟨false, false, false, false, true⟩ Option.none
        ⟨"/w", ["/w"], [("t.j2", "x"), ("/w/out", "OLD")], true, [], []⟩).1).files
      "/w/out" = strLookup [("t.j2", "x"), ("/w/out", "OLD")] "/w/out" :=
  no_overwrite_skips_existing_destination trivialOracle "t.j2" "/w/out" []
    ⟨false, false, false, false, true⟩ Option.none
    ⟨"/w", ["/w"], [("t.j2", "x"), ("/w/out", "OLD")], true, [], []⟩
    ["/w"] "x" "rendered" ⟨"/w", ["/w"], [("t.j2", "x"), ("/w/out", "OLD")], true, [], []⟩
    (by rfl) (by rfl) (by rfl) (by rfl) (by rfl) (by rfl) (by rfl) (by rfl) (by rfl)

/-- Heap values for the aliasing model of the merge: scalars and (unmutated)
lists are inline and immutable; dicts are mutable heap objects addressed by
`ref`.  This second model of `var_dict_update` exists to settle the
frame/no-mutation claim, which the pure model cannot express. -/
inductive HVal where
  | none : HVal
  | bool (b : Bool) : HVal
  | int (n : Int) : HVal
  | float (m : Int) (e : Nat) : HVal
  | str (s : String) : HVal
  | list (l : List HVal) : HVal
  | ref (a : Nat) : HVal
deriving Repr

/-- A heap dict: the entry list stored at an address. -/
abbrev HDict := List (String × HVal)

/-- The heap: address `i` holds the dict `σ[i]`. -/
abbrev Store := List HDict

/-- Read a dict from the heap (out-of-range reads yield the empty dict;
they do not occur for closed stores). -/
def storeGet (σ : Store) (a : Nat) : HDict :=
  (σ.get? a).getD []

/-- Overwrite the dict at an address. -/
def storeSet (σ : Store) (a : Nat) (d : HDict) : Store :=
  σ.set a d

/-- Allocate a fresh dict object, returning its address. -/
def alloc (σ : Store) (d : HDict) : Store × Nat :=
  (σ ++ [d], σ.length)

/-- Python `d[k]` on a heap dict. -/
def hLookup (d : HDict) (k : String) : Option HVal :=
  match d with
  | [] => Option.none
  | (k1, v) :: rest => if k1 = k then some v else hLookup rest k

/-- Python `d[k] = v` on a heap dict's entry list. -/
def hDictSet (d : HDict) (k : String) (v : HVal) : HDict :=
  match d with
  | [] => [(k, v)]
  | (k1, w) :: rest => if k1 = k then (k, v) :: rest else (k1, w) :: hDictSet rest k v

mutual

/-- Read back the value tree reachable from a heap value.  `fuel` bounds the
recursion depth (`Option.none` models Python's recursion limit on cyclic
structures; the theorems below hold for every fuel). -/
def reify (fuel : Nat) (σ : Store) (v : HVal) : Option PyVal :=
  match fuel with
  | 0 => Option.none
  | f + 1 =>
    match v with
    | .none => some .none
    | .bool b => some (.bool b)
    | .int n => some (.int n)
    | .float m e => some (.float m e)
    | .str s => some (.str s)
    | .list l => (reifyList f σ l).map PyVal.list
    | .ref a => (reifyEntries f σ (storeGet σ a)).map PyVal.dict

/-- Reify every element of a list. -/
def reifyList (fuel : Nat) (σ : Store) (l : List HVal) : Option (List PyVal) :=
  match fuel with
  | 0 => Option.none
  | f + 1 =>
    match l with
    | [] => some []
    | v :: rest =>
        match reify f σ v, reifyList f σ rest with
        | some x, some xs => some (x :: xs)
        | _, _ => Option.none

/-- Reify every entry of a dict. -/
def reifyEntries (fuel : Nat) (σ : Store) (d : HDict) : Option PyDict :=
  match fuel with
  | 0 => Option.none
  | f + 1 =>
    match d with
    | [] => some []
    | (k, v) :: rest =>
        match reify f σ v, reifyEntries f σ rest with
        | some x, some xs => some ((k, x) :: xs)
        | _, _ => Option.none

end

/-- Python `==` across the heap: read both value trees back and compare with
`pyEq` (false on fuel exhaustion). -/
def pyEqH (fuel : Nat) (σ : Store) (v w : HVal) : Bool :=
  match reify fuel σ v, reify fuel σ w with
  | some x, some y => pyEq x y
  | _, _ => false

/-- Python `str()` across the heap, for the warning texts. -/
def pyStrH (fuel : Nat) (σ : Store) (v : HVal) : String :=
  match reify fuel σ v with
  | some x => pyStr x
  | Option.none => ""

mutual

/-- Allocate a pure value (as produced by the parse cascade) into the heap:
`ast.literal_eval` builds fresh objects. -/
def allocVal (σ : Store) : PyVal → Store × HVal
  | .none => (σ, .none)
  | .bool b => (σ, .bool b)
  | .int n => (σ, .int n)
  | .float m e => (σ, .float m e)
  | .str s => (σ, .str s)
  | .list l =>
      let (σ2, l2) := allocValList σ l
      (σ2, .list l2)
  | .dict d =>
      let (σ2, d2) := allocValEntries σ d
      let (σ3, a) := alloc σ2 d2
      (σ3, .ref a)
termination_by v => sizeOf v
decreasing_by all_goals (simp_wf <;> omega)

/-- Allocate every element of a list. -/
def allocValList (σ : Store) : List PyVal → Store × List HVal
  | [] => (σ, [])
  | v :: rest =>
      let (σ2, hv) := allocVal σ v
      let (σ3, rest2) := allocValList σ2 rest
      (σ3, hv :: rest2)
termination_by l => sizeOf l
decreasing_by all_goals (simp_wf <;> omega)

/-- Allocate every entry of a dict. -/
def allocValEntries (σ : Store) : PyDict → Store × HDict
  | [] => (σ, [])
  | (k, v) :: rest =>
      let (σ2, hv) := allocVal σ v
      let (σ3, rest2) := allocValEntries σ2 rest
      (σ3, (k, hv) :: rest2)
termination_by d => sizeOf d
decreasing_by all_goals (simp_wf <;> omega)

end

mutual

/-- Heap-level embedding of `var_dict_update` (src/j2gpp/utils.py, lines
229-294), mirroring Python's object semantics: `var_dict_res =
var_dict1.copy()` allocates a fresh dict sharing the base's values
(line 231), every write of the loop targets only that fresh object, and the
recursive calls allocate their own fresh results.  `fuel` bounds the
recursion depth (the theorems hold for every fuel).  Returns the final
store, the address of the result dict, and the warnings. -/
def var_dict_updateH (fuel : Nat) (σ : Store) (a1 a2 : Nat) (val_scope context : String) :
    Store × Nat × List String :=
  match fuel with
  | 0 => (σ, a1, [])
  | f + 1 =>
    let d1 := storeGet σ a1
    let ar := alloc σ d1
    let d2 := storeGet ar.1 a2
    let gr := goEntriesH f ar.1 d1 d2 ar.2 val_scope context
    (gr.1, ar.2, gr.2)
termination_by (fuel, 0)

/-- The `for key, val in var_dict2.items()` loop over a snapshot of the
incoming entries (sound because only fresh objects are ever written), with
the loop-carried and, in the nested-dict branch, rebound `val_scope`. -/
def goEntriesH (f : Nat) (σ : Store) (d1 entries : HDict) (r : Nat)
    (val_scope context : String) : Store × List String :=
  match entries with
  | [] => (σ, [])
  | (key, val) :: rest =>
    match hLookup d1 key with
    | some val_ori =>
      if pyEqH f σ val_ori val then
        goEntriesH f (storeSet σ r (hDictSet (storeGet σ r) key val)) d1 rest r
          val_scope context
      else
        (match val_ori, val with
         | .ref aOri, .ref aVal =>
             let val_scope1 := val_scope ++ key ++ "."
             let sub := var_dict_updateH f σ aOri aVal val_scope1 context
             let σ3 := storeSet sub.1 r (hDictSet (storeGet sub.1 r) key (.ref sub.2.1))
             let tail := goEntriesH f σ3 d1 rest r val_scope1 context
             (tail.1, sub.2.2 ++ tail.2)
         | .str s, .ref aVal =>
             if looksLikeDict s then
               match dictMergeCascade s with
               | some parsed =>
                   let av := allocVal σ (.dict parsed)
                   (match av.2 with
                    | .ref aPd =>
                        let sub := var_dict_updateH f av.1 aPd aVal val_scope context
                        let σ3 := storeSet sub.1 r
                          (hDictSet (storeGet sub.1 r) key (.ref sub.2.1))
                        let tail := goEntriesH f σ3 d1 rest r val_scope context
                        (tail.1, sub.2.2 ++ tail.2)
                    | _ =>
                        let w := overwriteWarning val_scope key (.str s) (.dict parsed)
                          context
                        let tail := goEntriesH f
                          (storeSet σ r (hDictSet (storeGet σ r) key val)) d1 rest r
                          val_scope context
                        (tail.1, w :: tail.2))
               | Option.none =>
                   let w := "Variable '" ++ val_scope ++ key ++
                     "' got overwritten from '" ++ pyStrH f σ val_ori ++ "' to '" ++
                     pyStrH f σ val ++ "'" ++ context ++ "."
                   let tail := goEntriesH f
                     (storeSet σ r (hDictSet (storeGet σ r) key val)) d1 rest r
                     val_scope context
                   (tail.1, w :: tail.2)
             else
               let w := "Variable '" ++ val_scope ++ key ++
                 "' got overwritten from '" ++ pyStrH f σ val_ori ++ "' to '" ++
                 pyStrH f σ val ++ "'" ++ context ++ "."
               let tail := goEntriesH f
                 (storeSet σ r (hDictSet (storeGet σ r) key val)) d1 rest r
                 val_scope context
               (tail.1, w :: tail.2)
         | _, _ =>
             let w := "Variable '" ++ val_scope ++ key ++
               "' got overwritten from '" ++ pyStrH f σ val_ori ++ "' to '" ++
               pyStrH f σ val ++ "'" ++ context ++ "."
             let tail := goEntriesH f
               (storeSet σ r (hDictSet (storeGet σ r) key val)) d1 rest r
               val_scope context
             (tail.1, w :: tail.2))
    | Option.none =>
        goEntriesH f (storeSet σ r (hDictSet (storeGet σ r) key val)) d1 rest r
          val_scope context
termination_by (f, 1 + sizeOf entries)

end

mutual

/-- Every address mentioned in a heap value is below `n`. -/
def refsBelow (n : Nat) : HVal → Bool
  | .ref a => decide (a < n)
  | .list l => refsBelowList n l
  | _ => true
termination_by v => sizeOf v
decreasing_by all_goals (simp_wf <;> omega)

/-- Every address mentioned in a list of heap values is below `n`. -/
def refsBelowList (n : Nat) : List HVal → Bool
  | [] => true
  | v :: rest => refsBelow n v && refsBelowList n rest
termination_by l => sizeOf l
decreasing_by all_goals (simp_wf <;> omega)

/-- Every address mentioned in a heap dict is below `n`. -/
def refsBelowEntries (n : Nat) : HDict → Bool
  | [] => true
  | (_, v) :: rest => refsBelow n v && refsBelowEntries n rest
termination_by d => sizeOf d
decreasing_by all_goals (simp_wf <;> omega)

end

/-- A store is closed when every stored dict only references existing
addresses. -/
def StoreClosed (σ : Store) : Bool :=
  σ.all (fun d => refsBelowEntries σ.length d)

theorem reify_agree (σ σ2 : Store) (hlen : σ.length ≤ σ2.length)
    (hagree : ∀ i, i < σ.length → σ2.get? i = σ.get? i)
    (hclosed : StoreClosed σ = true) :
    ∀ fuel,
      (∀ v, refsBelow σ.length v = true → reify fuel σ2 v = reify fuel σ v) ∧
      (∀ l, refsBelowList σ.length l = true →
        reifyList fuel σ2 l = reifyList fuel σ l) ∧
      (∀ d, refsBelowEntries σ.length d = true →
        reifyEntries fuel σ2 d = reifyEntries fuel σ d) := by
  intro fuel
  induction fuel with
  | zero => exact ⟨fun v _ => rfl, fun l _ => rfl, fun d _ => rfl⟩
  | succ f ih =>
      obtain ⟨ihv, ihl, ihd⟩ := ih
      refine ⟨?_, ?_, ?_⟩
      · intro v hv
        cases v with
        | none => rfl
        | bool b => rfl
        | int n => rfl
        | float m e => rfl
        | str s => rfl
        | list l =>
            unfold reify
            dsimp only
            rw [ihl l (by simpa [refsBelow] using hv)]
        | ref a =>
            have ha : a < σ.length := by simpa [refsBelow] using hv
            have hget : σ2.get? a = σ.get? a := hagree a ha
            have hsg : storeGet σ2 a = storeGet σ a := by
              unfold storeGet
              rw [hget]
            have hdclosed : refsBelowEntries σ.length (storeGet σ a) = true := by
              have hsome : σ.get? a = some (σ.get ⟨a, ha⟩) := List.get?_eq_get ha
              have hmem : σ.get ⟨a, ha⟩ ∈ σ := List.get_mem σ a ha
              have := (List.all_eq_true.mp hclosed) _ hmem
              unfold storeGet
              rw [hsome]
              exact this
            unfold reify
            dsimp only
            rw [hsg, ihd (storeGet σ a) hdclosed]
      · intro l hl
        cases l with
        | nil => rfl
        | cons v rest =>
            have h1 : refsBelow σ.length v = true := by
              simp [refsBelowList] at hl
              exact hl.1
            have h2 : refsBelowList σ.length rest = true := by
              simp [refsBelowList] at hl
              exact hl.2
            unfold reifyList
            dsimp only
            rw [ihv v h1, ihl rest h2]
      · intro d hd
        cases d with
        | nil => rfl
        | cons e rest =>
            obtain ⟨k, v⟩ := e
            have h1 : refsBelow σ.length v = true := by
              simp [refsBelowEntries] at hd
              exact hd.1
            have h2 : refsBelowEntries σ.length rest = true := by
              simp [refsBelowEntries] at hd
              exact hd.2
            unfold reifyEntries
            dsimp only
            rw [ihv v h1, ihd rest h2]

theorem allocVal_frame : ∀ (σ : Store) (v : PyVal),
    σ.length ≤ (allocVal σ v).1.length ∧
    ∀ i, i < σ.length → (allocVal σ v).1.get? i = σ.get? i := by
  intro σ v
  refine allocVal.induct
    (fun σ v => σ.length ≤ (allocVal σ v).1.length ∧
      ∀ i, i < σ.length → (allocVal σ v).1.get? i = σ.get? i)
    (fun σ d => σ.length ≤ (allocValEntries σ d).1.length ∧
      ∀ i, i < σ.length → (allocValEntries σ d).1.get? i = σ.get? i)
    (fun σ l => σ.length ≤ (allocValList σ l).1.length ∧
      ∀ i, i < σ.length → (allocValList σ l).1.get? i = σ.get? i)
    ?_ ?_ ?_ ?_ ?_ ?_ ?_ ?_ ?_ ?_ ?_ σ v
  · intro σ
    unfold allocVal
    exact ⟨Nat.le_refl _, fun i _ => rfl⟩
  · intro σ b
    unfold allocVal
    exact ⟨Nat.le_refl _, fun i _ => rfl⟩
  · intro σ n
    unfold allocVal
    exact ⟨Nat.le_refl _, fun i _ => rfl⟩
  · intro σ m e
    unfold allocVal
    exact ⟨Nat.le_refl _, fun i _ => rfl⟩
  · intro σ s
    unfold allocVal
    exact ⟨Nat.le_refl _, fun i _ => rfl⟩
  · intro σ l σ2 l2 heq ih
    unfold allocVal
    rw [heq] at ih ⊢
    exact ih
  · intro σ d σ2 d2 heq σ3 a heqa ih
    unfold allocVal
    rw [heq] at ih ⊢
    dsimp only at ih ⊢
    obtain ⟨ih1, ih2⟩ := ih
    constructor
    · show σ.length ≤ (σ2 ++ [d2]).length
      simp only [List.length_append]
      omega
    · intro i hi
      show (σ2 ++ [d2]).get? i = σ.get? i
      rw [List.get?_append (by omega)]
      exact ih2 i hi
  · intro σ
    unfold allocValEntries
    exact ⟨Nat.le_refl _, fun i _ => rfl⟩
  · intro σ k1 v rest σ2 hv heq σ21 d2 heq2 ih1 ih2
    unfold allocValEntries
    rw [heq]
    dsimp only
    rw [heq2]
    dsimp only
    rw [heq] at ih1
    rw [heq2] at ih2
    constructor
    · exact Nat.le_trans ih1.1 ih2.1
    · intro i hi
      rw [ih2.2 i (Nat.lt_of_lt_of_le hi ih1.1), ih1.2 i hi]
  · intro σ
    unfold allocValList
    exact ⟨Nat.le_refl _, fun i _ => rfl⟩
  · intro σ v rest σ2 hv heq σ21 l2 heq2 ih1 ih2
    unfold allocValList
    rw [heq]
    dsimp only
    rw [heq2]
    dsimp only
    rw [heq] at ih1
    rw [heq2] at ih2
    constructor
    · exact Nat.le_trans ih1.1 ih2.1
    · intro i hi
      rw [ih2.2 i (Nat.lt_of_lt_of_le hi ih1.1), ih1.2 i hi]

theorem frame_step_set (σ : Store) (r : Nat) (X : HDict) (final : Store)
    (h1 : (storeSet σ r X).length ≤ final.length)
    (h2 : ∀ i, i < (storeSet σ r X).length → i ≠ r →
      final.get? i = (storeSet σ r X).get? i) :
    σ.length ≤ final.length ∧
    ∀ i, i < σ.length → i ≠ r → final.get? i = σ.get? i := by
  have hlen : (storeSet σ r X).length = σ.length := by simp [storeSet]
  constructor
  · omega
  · intro i hi hir
    rw [h2 i (by omega) hir]
    exact List.get?_set_ne X σ (Ne.symm hir)

/-- Frame property of the heap-level merge: every address that existed
before the call holds exactly the same dict afterwards (for the loop, the
freshly allocated result address `r` is the only exception), and the store
only grows.  This is the heart of the no-mutation claim: the code writes
only to `var_dict_res` objects it allocated itself. -/
theorem var_dict_updateH_frame : ∀ (fuel : Nat) (σ : Store) (a1 a2 : Nat) (s c : String),
    σ.length ≤ (var_dict_updateH fuel σ a1 a2 s c).1.length ∧
    ∀ i, i < σ.length →
      (var_dict_updateH fuel σ a1 a2 s c).1.get? i = σ.get? i := by
  intro fuel σ a1 a2 s c
  refine var_dict_updateH.induct
    (fun fuel σ a1 a2 s c =>
      σ.length ≤ (var_dict_updateH fuel σ a1 a2 s c).1.length ∧
      ∀ i, i < σ.length →
        (var_dict_updateH fuel σ a1 a2 s c).1.get? i = σ.get? i)
    (fun f σ d1 e r s c =>
      σ.length ≤ (goEntriesH f σ d1 e r s c).1.length ∧
      ∀ i, i < σ.length → i ≠ r →
        (goEntriesH f σ d1 e r s c).1.get? i = σ.get? i)
    ?_ ?_ ?_ ?_ ?_ ?_ ?_ ?_ ?_ ?_ ?_ fuel σ a1 a2 s c
  · intro σ a1 a2 s c
    unfold var_dict_updateH
    exact ⟨Nat.le_refl _, fun i _ => rfl⟩
  · intro σ a1 a2 s c fuel d1 ar d2 ih
    obtain ⟨ih1, ih2⟩ := ih
    have harlen : ar.1.length = σ.length + 1 := by
      show (σ ++ [d1]).length = σ.length + 1
      simp
    unfold var_dict_updateH
    dsimp only
    constructor
    · exact Nat.le_trans (by omega) ih1
    · intro i hi
      have hne : i ≠ ar.2 := by
        show i ≠ σ.length
        omega
      have h3 := ih2 i (by omega) hne
      refine h3.trans ?_
      show (σ ++ [d1]).get? i = σ.get? i
      exact List.get?_append (by omega)
  · intro f σ d1 r s c
    unfold goEntriesH
    exact ⟨Nat.le_refl _, fun i _ _ => rfl⟩
  · intro f σ d1 r s c k1 v rest valOri hlook hpy ih
    unfold goEntriesH
    rw [hlook]
    dsimp only
    rw [if_pos hpy]
    exact frame_step_set σ r _ _ ih.1 ih.2
  · intro f σ d1 r s c k1 rest aOri aVal vs1 sub σ3 hlook hpy ih1 ih1b ih2
    clear ih1b
    obtain ⟨iha, ihb⟩ := ih1
    obtain ⟨ih2a, ih2b⟩ := ih2
    have hσ3len : σ3.length = sub.1.length := by
      show (storeSet sub.1 r (hDictSet (storeGet sub.1 r) k1 (HVal.ref sub.2.1))).length
        = sub.1.length
      simp [storeSet]
    unfold goEntriesH
    rw [hlook]
    dsimp only
    rw [if_neg hpy]
    constructor
    · exact Nat.le_trans iha (Nat.le_trans (Nat.le_of_eq hσ3len.symm) ih2a)
    · intro i hi hir
      have hi3 : i < σ3.length := by
        rw [hσ3len]
        exact Nat.lt_of_lt_of_le hi iha
      have h4 := ih2b i hi3 hir
      have h5 : σ3.get? i = sub.1.get? i := by
        show (storeSet sub.1 r (hDictSet (storeGet sub.1 r) k1 (HVal.ref sub.2.1))).get? i
          = sub.1.get? i
        exact List.get?_set_ne _ _ (Ne.symm hir)
      exact h4.trans (h5.trans (ihb i hi))
  · intro f σ d1 r s c k1 rest sl aVal hlooks parsed hcasc av aPd hav sub σ3
      hlook hpy ih1 ih1b ih2
    clear ih1b
    obtain ⟨hala, halb⟩ := allocVal_frame σ (.dict parsed)
    obtain ⟨iha, ihb⟩ := ih1
    obtain ⟨ih2a, ih2b⟩ := ih2
    have hσ3len : σ3.length = sub.1.length := by
      show (storeSet sub.1 r (hDictSet (storeGet sub.1 r) k1 (HVal.ref sub.2.1))).length
        = sub.1.length
      simp [storeSet]
    unfold goEntriesH
    rw [hlook]
    dsimp only
    rw [if_neg hpy]
    rw [if_pos hlooks]
    rw [hcasc]
    dsimp only
    rw [hav]
    constructor
    · exact Nat.le_trans hala (Nat.le_trans iha
        (Nat.le_trans (Nat.le_of_eq hσ3len.symm) ih2a))
    · intro i hi hir
      have hiav : i < av.1.length := Nat.lt_of_lt_of_le hi hala
      have hi3 : i < σ3.length := by
        rw [hσ3len]
        exact Nat.lt_of_lt_of_le hiav iha
      have h4 := ih2b i hi3 hir
      have h5 : σ3.get? i = sub.1.get? i := by
        show (storeSet sub.1 r (hDictSet (storeGet sub.1 r) k1 (HVal.ref sub.2.1))).get? i
          = sub.1.get? i
        exact List.get?_set_ne _ _ (Ne.symm hir)
      exact h4.trans (h5.trans ((ihb i hiav).trans (halb i hi)))
  · intro f σ d1 r s c k1 rest sl aVal hlooks parsed hcasc av hnoref hlook hpy ih
    unfold goEntriesH
    rw [hlook]
    dsimp only
    rw [if_neg hpy]
    rw [if_pos hlooks]
    rw [hcasc]
    dsimp only
    rcases hv : av.2 with _ | b | n | ⟨m, e⟩ | s2 | l | aPd
    case ref => exact (hnoref aPd hv).elim
    all_goals exact frame_step_set σ r _ _ ih.1 ih.2
  · intro f σ d1 r s c k1 rest sl aVal hlooks hcasc hlook hpy ih
    unfold goEntriesH
    rw [hlook]
    dsimp only
    rw [if_neg hpy]
    rw [if_pos hlooks]
    rw [hcasc]
    exact frame_step_set σ r _ _ ih.1 ih.2
  · intro f σ d1 r s c k1 rest sl aVal hlooks hlook hpy ih
    unfold goEntriesH
    rw [hlook]
    dsimp only
    rw [if_neg hpy]
    rw [if_neg hlooks]
    exact frame_step_set σ r _ _ ih.1 ih.2
  · intro f σ d1 r s c k1 v rest valOri hlook hpy hnd hns ih
    unfold goEntriesH
    rw [hlook]
    dsimp only
    rw [if_neg hpy]
    rcases valOri with _ | b | n | ⟨m, e⟩ | s2 | l | aa <;>
      rcases v with _ | b2 | n2 | ⟨m2, e2⟩ | s3 | l2 | aa2 <;>
      first
        | (exact (hnd aa aa2 rfl rfl).elim)
        | (exact (hns s2 aa2 rfl rfl).elim)
        | (exact frame_step_set σ r _ _ ih.1 ih.2)
        | skip
  · intro f σ d1 r s c k1 v rest hlook ih
    unfold goEntriesH
    rw [hlook]
    exact frame_step_set σ r _ _ ih.1 ih.2

/-- C4: `var_dict_update` returns a new mapping and never mutates the base
mapping in place.  Over the heap embedding: for a closed store and a valid
base address, the value tree reachable from the base address reads back
identically (at every depth, for every read fuel) after the merge, and the
result of the merge is a freshly allocated address distinct from the base.
(utils.py line 231: `var_dict_res = var_dict1.copy()`; all writes of the
loop target only that fresh object.) -/
theorem var_dict_updateH_no_mutation (fuel : Nat) (σ : Store) (a1 a2 : Nat)
    (s c : String) (hclosed : StoreClosed σ = true) (ha1 : a1 < σ.length) :
    (∀ rf, reify rf (var_dict_updateH fuel σ a1 a2 s c).1 (HVal.ref a1)
      = reify rf σ (HVal.ref a1)) ∧
    (0 < fuel → (var_dict_updateH fuel σ a1 a2 s c).2.1 = σ.length ∧
      (var_dict_updateH fuel σ a1 a2 s c).2.1 ≠ a1) := by
  obtain ⟨hlen, hagree⟩ := var_dict_updateH_frame fuel σ a1 a2 s c
  constructor
  · intro rf
    have hrb : refsBelow σ.length (HVal.ref a1) = true := by
      unfold refsBelow
      exact decide_eq_true ha1
    exact (reify_agree σ (var_dict_updateH fuel σ a1 a2 s c).1 hlen hagree
      hclosed rf).1 (HVal.ref a1) hrb
  · intro hf
    cases fuel with
    | zero => exact absurd hf (by omega)
    | succ f =>
        have h2 : (var_dict_updateH (f + 1) σ a1 a2 s c).2.1 = σ.length := by
          unfold var_dict_updateH
          rfl
        refine ⟨h2, ?_⟩
        rw [h2]
        omega

/-- Closed instance of the no-mutation theorem: base dict at address 0
(holding a nested dict at address 1 and a scalar), incoming dict at
address 2 conflicting on both keys; the merged result is the fresh
address 3 and the base reads back unchanged. -/
theorem var_dict_updateH_no_mutation_witness :
    reify 10 (var_dict_updateH 5
        [[("x", HVal.ref 1), ("y", HVal.int 2)],
         [("a", HVal.int 1)],
         [("x", HVal.int 7), ("y", HVal.int 3)]] 0 2 "" "").1 (HVal.ref 0)
      = reify 10
        [[("x", HVal.ref 1), ("y", HVal.int 2)],
         [("a", HVal.int 1)],
         [("x", HVal.int 7), ("y", HVal.int 3)]] (HVal.ref 0) ∧
    (var_dict_updateH 5
        [[("x", HVal.ref 1), ("y", HVal.int 2)],
         [("a", HVal.int 1)],
         [("x", HVal.int 7), ("y", HVal.int 3)]] 0 2 "" "").2.1 = 3 := by
  have h := var_dict_updateH_no_mutation 5
    [[("x", HVal.ref 1), ("y", HVal.int 2)],
     [("a", HVal.int 1)],
     [("x", HVal.int 7), ("y", HVal.int 3)]] 0 2 "" ""
    (by simp [StoreClosed, refsBelowEntries, refsBelow]) (by decide)
  exact ⟨h.1 10, (h.2 (by decide)).1⟩
